import Mathlib

/-!
# LAPU-128: a verification development

A shallow embedding, in Lean 4, of the LAPU-128 assembler
(`src/assembler/lapu128_as.py`) and emulator
(`src/emulator/lapu128_emulator.py`), together with theorems that settle
the specification's claims about them.

Conventions of the embedding:
* Python unbounded integers become `Int` (or `Nat` where the source value
  is provably non-negative, e.g. bit patterns).
* Python lists become `List`; in-place element assignment becomes
  `List.set`.  Indexing `l[i]` becomes `l.getD i default`; every such
  read in the translated code is guarded by the same range checks the
  Python source performs, so the default is never produced on the
  executions the theorems talk about.
* Python floor division `//` becomes `Int.fdiv` (both round toward
  negative infinity); `abs(x) // abs(y)` becomes `Nat` division of the
  absolute values.
* Functions that can `raise` become `Except String` computations.
* `c_sqrt` uses host floating point in the source; it is modelled as an
  explicit function parameter `csqrt_fn` of the execution functions, so
  every theorem below holds for an arbitrary implementation of it.
-/

/-! ## Fixed-Point Arithmetic Kernel (FPK), from `lapu128_emulator.py` -/

/-- A complex raw pair `(re_raw, im_raw)`, each a Q32.32 fixed-point value. -/
abbrev Cx := Int × Int

def FRAC_BITS : Nat := 32

/-- `RAW_MIN = -(1 << (FRAC_BITS + INT_BITS - 1))`, i.e. `-2^63`. -/
def RAW_MIN : Int := -(2 ^ 63)

/-- `RAW_MAX = (1 << (FRAC_BITS + INT_BITS - 1)) - 1`, i.e. `2^63 - 1`. -/
def RAW_MAX : Int := 2 ^ 63 - 1

/-- `sat64` from the emulator: clamp to `[RAW_MIN, RAW_MAX]`. -/
def sat64 (x : Int) : Int :=
  if x < RAW_MIN then RAW_MIN
  else if x > RAW_MAX then RAW_MAX
  else x

def add_q (a b : Int) : Int := sat64 (a + b)

def sub_q (a b : Int) : Int := sat64 (a - b)

/-- `trunc_shr`: truncate toward zero after shifting right by `n`.
The Python source computes `x >> n` on a non-negative `x`, which is
floor division by `2^n`; on `Nat` that is `>>> n` of the absolute value. -/
def trunc_shr (x : Int) (n : Nat) : Int :=
  if 0 ≤ x then ((x.toNat >>> n : Nat) : Int)
  else -(((-x).toNat >>> n : Nat) : Int)

/-- `mul_q`: `(a * b) >> FRAC_BITS`, truncating toward zero, then saturate. -/
def mul_q (a b : Int) : Int := sat64 (trunc_shr (a * b) FRAC_BITS)

/-- `recip_q` from the emulator: for `a ≠ 0` it computes
`trunc_shr(1 << (FRAC_BITS*2), 0) // a` with Python floor division `//`
(hence `Int.fdiv` here), then saturates. -/
def recip_q (a : Int) : Int :=
  if a = 0 then 0
  else sat64 (Int.fdiv (trunc_shr ((2 : Int) ^ (FRAC_BITS * 2)) 0) a)

/-- `div_q`: `0` on a zero divisor, else `(num << FRAC_BITS) / den` with
truncation toward zero (the source computes `abs(wide) // abs(den)` and
re-attaches the sign), then saturate. -/
def div_q (num den : Int) : Int :=
  if den = 0 then 0
  else
    let wide : Int := num * 2 ^ FRAC_BITS
    let q : Int :=
      if (0 ≤ wide ∧ 0 < den) ∨ (wide ≤ 0 ∧ den < 0) then
        ((wide.natAbs / den.natAbs : Nat) : Int)
      else
        -((wide.natAbs / den.natAbs : Nat) : Int)
    sat64 q

def abs_q (a : Int) : Int := if 0 ≤ a then a else sat64 (-a)

def c_add (a b : Cx) : Cx := (add_q a.1 b.1, add_q a.2 b.2)

def c_sub (a b : Cx) : Cx := (sub_q a.1 b.1, sub_q a.2 b.2)

def c_mul (a b : Cx) : Cx :=
  (sub_q (mul_q a.1 b.1) (mul_q a.2 b.2),
   add_q (mul_q a.1 b.2) (mul_q a.2 b.1))

/-- `c_div` from the emulator.  Note that the numerator is
`c_mul(a, (br, -bi))` with Python's exact (unsaturated) negation of `bi`,
not `c_conj b`. -/
def c_div (a b : Cx) : Cx :=
  let denom := add_q (mul_q b.1 b.1) (mul_q b.2 b.2)
  let num := c_mul a (b.1, -b.2)
  if denom = 0 then (0, 0)
  else (div_q num.1 denom, div_q num.2 denom)

def c_conj (a : Cx) : Cx := (a.1, sat64 (-a.2))

/-- `c_abs2`: `(ar*ar + ai*ai) >> 32`, truncated, saturated. -/
def c_abs2 (a : Cx) : Int := sat64 (trunc_shr (a.1 * a.1 + a.2 * a.2) FRAC_BITS)

/-- `c_abs`: `floor_sqrt(mag2 << FRAC_BITS)`; `math.isqrt` is `Nat.sqrt`. -/
def c_abs (a : Cx) : Int :=
  let mag2 := c_abs2 a
  if mag2 < 0 then 0
  else sat64 ((Nat.sqrt (mag2.toNat <<< FRAC_BITS) : Nat) : Int)

/-! ## ISA decode helpers (`get_bits`, `get_bits_signed`) -/

/-- `get_bits(word, hi, lo)` from the emulator. -/
def get_bits (word : Nat) (hi lo : Nat) : Nat :=
  (word >>> lo) &&& ((1 <<< (hi - lo + 1)) - 1)

/-- `get_bits_signed` from the emulator: two's-complement sign extension. -/
def get_bits_signed (word : Nat) (hi lo : Nat) : Int :=
  let width := hi - lo + 1
  let val := get_bits word hi lo
  if val &&& (1 <<< (width - 1)) ≠ 0 then (val : Int) - 2 ^ width
  else (val : Int)

/-! ## Bit-level helper lemmas -/

theorem lor_eq_add_of_and_eq_zero : ∀ a b : Nat, a &&& b = 0 → a ||| b = a + b := by
  intro a
  induction a using Nat.strong_induction_on with
  | _ a ih =>
    intro b h
    rcases Nat.eq_zero_or_pos a with ha | ha
    · simp [ha]
    · have hhalf : a / 2 &&& b / 2 = 0 := by
        rw [← Nat.and_div_two, h]
      have ih2 := ih (a / 2) (Nat.div_lt_self ha (by decide)) (b / 2) hhalf
      have e1 : (a ||| b) / 2 = a / 2 ||| b / 2 := Nat.or_div_two
      have e2 := @Nat.or_mod_two_eq_one a b
      have e3 := @Nat.and_mod_two_eq_one a b
      have e4 : (a &&& b) % 2 = 0 := by rw [h]
      omega

theorem testBit_high_false {x n i : Nat} (hx : x < 2 ^ n) (hi : n ≤ i) :
    x.testBit i = false :=
  Nat.testBit_lt_two_pow (lt_of_lt_of_le hx (Nat.pow_le_pow_right (by decide) hi))

/-- If the bits of `x` in the field `[lo, lo+w)` are all zero (expressed
arithmetically) then `x` is bitwise disjoint from any `y <<< lo` with
`y < 2^w`. -/
theorem and_shifted_eq_zero {x w lo : Nat} (hx : x / 2 ^ lo % 2 ^ w = 0)
    {y : Nat} (hy : y < 2 ^ w) : x &&& (y <<< lo) = 0 := by
  apply Nat.eq_of_testBit_eq
  intro i
  simp only [Nat.testBit_and, Nat.testBit_shiftLeft, Nat.zero_testBit]
  rcases Nat.lt_or_ge i lo with hlt | hge
  · simp [Nat.not_le_of_lt hlt]
  · rcases Nat.lt_or_ge (i - lo) w with hw | hw
    · have hbit : x.testBit i = false := by
        have h1 : x.testBit i = (x / 2 ^ lo).testBit (i - lo) := by
          rw [← Nat.shiftRight_eq_div_pow, Nat.testBit_shiftRight]
          congr 1
          omega
        have h2 : (x / 2 ^ lo).testBit (i - lo)
            = (x / 2 ^ lo % 2 ^ w).testBit (i - lo) := by
          rw [Nat.testBit_mod_two_pow]
          simp [hw]
        rw [h1, h2, hx]
        simp
      simp [hbit]
    · have : y.testBit (i - lo) = false := testBit_high_false hy hw
      simp [this]

/-- Writing a value `v < 2^w` into the zeroed field `[lo, lo+w)` of `x`
is addition of `v * 2^lo`; this is the arithmetic content of
`(x & ~mask) | ((v << lo) & mask)` in the source's `set_bits`. -/
theorem masked_write_eq_add {x v w lo : Nat} (hx : x / 2 ^ lo % 2 ^ w = 0)
    (hv : v < 2 ^ w) :
    (x - (x &&& ((2 ^ w - 1) <<< lo))) ||| ((v <<< lo) &&& ((2 ^ w - 1) <<< lo))
      = x + v * 2 ^ lo := by
  have hmask : x &&& ((2 ^ w - 1) <<< lo) = 0 :=
    and_shifted_eq_zero hx (by have := Nat.two_pow_pos w; omega)
  have hvmask : (v <<< lo) &&& ((2 ^ w - 1) <<< lo) = v <<< lo := by
    have h1 : (v <<< lo) &&& ((2 ^ w - 1) <<< lo) = (v &&& (2 ^ w - 1)) <<< lo := by
      apply Nat.eq_of_testBit_eq
      intro i
      simp only [Nat.testBit_and, Nat.testBit_shiftLeft]
      rcases Nat.lt_or_ge i lo with hlt | hge
      · simp [Nat.not_le_of_lt hlt]
      · simp [Nat.le_of_lt, hge]
    rw [h1, Nat.and_pow_two_sub_one_eq_mod, Nat.mod_eq_of_lt hv]
  rw [hmask, Nat.sub_zero, hvmask]
  rw [lor_eq_add_of_and_eq_zero _ _ (and_shifted_eq_zero hx hv)]
  rw [Nat.shiftLeft_eq]

theorem and_one_shiftLeft (u k : Nat) :
    u &&& (1 <<< k) = if u.testBit k then 2 ^ k else 0 := by
  apply Nat.eq_of_testBit_eq
  intro i
  simp only [Nat.testBit_and, Nat.testBit_shiftLeft]
  rcases eq_or_ne i k with rfl | hne
  · cases h : u.testBit i <;>
      simp [h, Nat.sub_self, Nat.testBit_one_zero, Nat.testBit_two_pow_self]
  · have hright : (decide (i ≥ k) && Nat.testBit 1 (i - k)) = false := by
      rcases Nat.lt_or_ge i k with h | h
      · simp [Nat.not_le_of_lt h]
      · have hik : i - k ≠ 0 := by omega
        have h1 : Nat.testBit 1 (i - k) = false := by
          rw [← Bool.not_eq_true, Nat.testBit_one_eq_true_iff_self_eq_zero]
          exact hik
        simp [h1]
    rw [hright, Bool.and_false]
    split
    · exact (Nat.testBit_two_pow_of_ne hne.symm).symm
    · simp

/-! ## Assembler bit packing (`set_bits`), from `lapu128_as.py` -/

/-- `set_bits` from the assembler.  The Python body computes
`(word & ~mask) | ((val << lo) & mask)` on unbounded non-negative
integers; `word & ~mask` clears exactly the bits of `mask`, which on
`Nat` is `word - (word &&& mask)`.  Out-of-range values raise
`AsmError`, modelled as `Except.error`; negative signed values are
stored in two's complement. -/
def set_bits (word : Nat) (val : Int) (hi lo : Nat) (signed : Bool) :
    Except String Nat :=
  let width := hi - lo + 1
  let minv : Int := if signed then -(2 ^ (width - 1)) else 0
  let maxv : Int := if signed then 2 ^ (width - 1) - 1 else 2 ^ width - 1
  if val < minv ∨ maxv < val then
    .error "value does not fit in field"
  else
    let v : Nat := (if signed && decide (val < 0) then 2 ^ width + val else val).toNat
    let mask : Nat := (2 ^ width - 1) <<< lo
    .ok ((word - (word &&& mask)) ||| ((v <<< lo) &&& mask))

theorem set_bits_ok (x : Nat) (v : Int) (hi lo : Nat) (h0 : 0 ≤ v)
    (hv : v.toNat < 2 ^ (hi - lo + 1)) (hx : x / 2 ^ lo % 2 ^ (hi - lo + 1) = 0) :
    set_bits x v hi lo false = .ok (x + v.toNat * 2 ^ lo) := by
  unfold set_bits
  have hbridge : (((2 : Nat) ^ (hi - lo + 1) : Nat) : Int) = (2 : Int) ^ (hi - lo + 1) := by
    push_cast
    rfl
  have hcond : ¬(v < (if false then -((2:Int) ^ (hi - lo + 1 - 1)) else 0)
      ∨ (if false then (2:Int) ^ (hi - lo + 1 - 1) - 1 else (2:Int) ^ (hi - lo + 1) - 1)
        < v) := by
    simp only [Bool.false_eq_true, if_false]
    push_neg
    exact ⟨h0, by omega⟩
  rw [if_neg hcond]
  simp only [Bool.false_and, Bool.false_eq_true, if_false]
  exact congrArg Except.ok (masked_write_eq_add hx hv)

theorem set_bits_signed_ok (x : Nat) (v : Int) (hi lo : Nat)
    (hv1 : -((2 : Int) ^ (hi - lo)) ≤ v) (hv2 : v ≤ (2 : Int) ^ (hi - lo) - 1)
    (hx : x / 2 ^ lo % 2 ^ (hi - lo + 1) = 0) :
    set_bits x v hi lo true
      = .ok (x + (if v < 0 then (2 : Int) ^ (hi - lo + 1) + v else v).toNat * 2 ^ lo) := by
  unfold set_bits
  have hw : hi - lo + 1 - 1 = hi - lo := by omega
  have hsplit : (2 : Int) ^ (hi - lo + 1) = 2 ^ (hi - lo) * 2 := pow_succ 2 (hi - lo)
  have hcond : ¬(v < (if true then -((2:Int) ^ (hi - lo + 1 - 1)) else 0)
      ∨ (if true then (2:Int) ^ (hi - lo + 1 - 1) - 1 else (2:Int) ^ (hi - lo + 1) - 1)
        < v) := by
    simp only [if_true, hw]
    push_neg
    exact ⟨hv1, hv2⟩
  rw [if_neg hcond]
  have henc : ((if true && decide (v < 0) then (2:Int) ^ (hi - lo + 1) + v else v).toNat)
      = (if v < 0 then (2:Int) ^ (hi - lo + 1) + v else v).toNat := by
    simp only [Bool.true_and, decide_eq_true_eq]
  rw [henc]
  have hbridge : (((2 : Nat) ^ (hi - lo + 1) : Nat) : Int) = (2 : Int) ^ (hi - lo + 1) := by
    push_cast
    rfl
  have hvnat : (if v < 0 then (2:Int) ^ (hi - lo + 1) + v else v).toNat < 2 ^ (hi - lo + 1) := by
    split <;> omega
  exact congrArg Except.ok (masked_write_eq_add hx hvnat)

theorem get_bits_eq_div_mod (w hi lo : Nat) :
    get_bits w hi lo = w / 2 ^ lo % 2 ^ (hi - lo + 1) := by
  simp [get_bits, Nat.shiftRight_eq_div_pow, Nat.one_shiftLeft,
    Nat.and_pow_two_sub_one_eq_mod]

/-- Extract a field out of a word given as `high * 2^(hi+1) + mid * 2^lo + low`. -/
theorem get_bits_sum (hp mid low hi lo : Nat) (hlo : lo ≤ hi)
    (hmid : mid < 2 ^ (hi - lo + 1)) (hlow : low < 2 ^ lo) :
    get_bits (hp * 2 ^ (hi + 1) + mid * 2 ^ lo + low) hi lo = mid := by
  rw [get_bits_eq_div_mod]
  have e1 : (2 : Nat) ^ (hi + 1) = 2 ^ (hi - lo + 1) * 2 ^ lo := by
    rw [← pow_add]
    congr 1
    omega
  have e2 : hp * 2 ^ (hi + 1) + mid * 2 ^ lo + low
      = low + (hp * 2 ^ (hi - lo + 1) + mid) * 2 ^ lo := by rw [e1]; ring
  rw [e2, Nat.add_mul_div_right _ _ (Nat.two_pow_pos lo), Nat.div_eq_of_lt hlow,
    Nat.zero_add, Nat.mul_comm hp (2 ^ (hi - lo + 1)), Nat.mul_add_mod,
    Nat.mod_eq_of_lt hmid]

theorem except_bind_ok {α β : Type} (x : α) (f : α → Except String β) :
    (Except.ok x : Except String α) >>= f = f x := rfl

/-! ## Assembler per-family encoders, from `assemble_line` in `lapu128_as.py`

Each encoder is the field-writing sequence of the corresponding branch of
`assemble_line`, applied after operand parsing (register tokens always
parse to indices `0..7`, so those bounds appear as hypotheses of the
theorems rather than as runtime checks).  The trailing
"writing to s0/v0 is illegal" check is placed exactly where the source
performs it. -/

/-- The R-type branch.  All seven R sub-branches (scalar unary/binary,
vector lane, `vconj`, reductions with one or two vector sources, and
vector-scalar broadcast) write the same field sequence
`set_common(0x01, 0)`, then `subop`, `flags.map`, `rd`, `rs1`, `rs2`,
`imm16 = 0`, differing only in the mapping constant and in passing
`rs2 = 0` for the unary forms; `mapcode` and the operands are therefore
parameters here. -/
def encR (subop mapcode rd rs1 rs2 : Nat) : Except String Nat := do
  let w0 ← set_bits 0 1 127 120 false
  let w1 ← set_bits w0 0 119 112 false
  let w2 ← set_bits w1 subop 119 112 false
  let w3 ← set_bits w2 mapcode 97 96 false
  let w4 ← set_bits w3 rd 95 93 false
  let w5 ← set_bits w4 rs1 92 90 false
  let w6 ← set_bits w5 rs2 89 87 false
  let w7 ← set_bits w6 0 86 71 false
  if rd = 0 then .error "writing to s0 or v0 is illegal (hard error)" else pure w7

/-- Chain step: run one successful `set_bits` under the `Except` bind. -/
theorem bind_set_bits_step {x : Nat} {v : Int} {hi lo : Nat}
    {f : Nat → Except String Nat} {t : Except String Nat}
    (h0 : 0 ≤ v) (hv : v.toNat < 2 ^ (hi - lo + 1))
    (hx : x / 2 ^ lo % 2 ^ (hi - lo + 1) = 0)
    (hrest : f (x + v.toNat * 2 ^ lo) = t) :
    (set_bits x v hi lo false >>= f) = t := by
  rw [set_bits_ok x v hi lo h0 hv hx, except_bind_ok, hrest]

theorem bind_set_bits_signed_step {x : Nat} {v : Int} {hi lo : Nat}
    {f : Nat → Except String Nat} {t : Except String Nat}
    (hv1 : -((2 : Int) ^ (hi - lo)) ≤ v) (hv2 : v ≤ (2 : Int) ^ (hi - lo) - 1)
    (hx : x / 2 ^ lo % 2 ^ (hi - lo + 1) = 0)
    (hrest : f (x + (if v < 0 then (2 : Int) ^ (hi - lo + 1) + v else v).toNat * 2 ^ lo) = t) :
    (set_bits x v hi lo true >>= f) = t := by
  rw [set_bits_signed_ok x v hi lo hv1 hv2 hx, except_bind_ok, hrest]

/-- Final step of an encoder: the write-to-zero-register check passes. -/
theorem encoder_finish {rd w t : Nat} {msg : String} (hrd0 : rd ≠ 0) (h : w = t) :
    (if rd = 0 then (Except.error msg : Except String Nat) else pure w) = .ok t := by
  rw [if_neg hrd0, h]
  rfl

theorem encR_ok {subop mapcode rd rs1 rs2 : Nat} (hsub : subop < 256)
    (hmap : mapcode < 4) (hrd : rd < 8) (hrs1 : rs1 < 8) (hrs2 : rs2 < 8)
    (hrd0 : rd ≠ 0) :
    encR subop mapcode rd rs1 rs2
      = .ok (2 ^ 120 + subop * 2 ^ 112 + mapcode * 2 ^ 96 + rd * 2 ^ 93
          + rs1 * 2 ^ 90 + rs2 * 2 ^ 87) := by
  unfold encR
  refine bind_set_bits_step (by norm_num) (by norm_num) (by norm_num) ?_
  refine bind_set_bits_step (by norm_num) (by norm_num) (by omega) ?_
  refine bind_set_bits_step (by omega) (by omega) (by omega) ?_
  refine bind_set_bits_step (by omega) (by omega) (by omega) ?_
  refine bind_set_bits_step (by omega) (by omega) (by omega) ?_
  refine bind_set_bits_step (by omega) (by omega) (by omega) ?_
  refine bind_set_bits_step (by omega) (by omega) (by omega) ?_
  refine bind_set_bits_step (by norm_num) (by norm_num) (by omega) ?_
  exact encoder_finish hrd0 (by omega)

theorem pure_finish {w t : Nat} (h : w = t) :
    (pure w : Except String Nat) = .ok t := by
  rw [h]
  rfl

/-- The I-type branch: opcode `0x02`, `subop`, `rd`, `rs1`, then the two
45-bit two's-complement halves of `imm90` (`Re` in bits 44:0, `Im` in
bits 89:45, as produced by `q_fixed_pack`).  `cloadi` passes `rs1 = 0`;
`cscale_i` passes `im_bits = 0`. -/
def encI (subop rd rs1 : Nat) (re_bits im_bits : Nat) : Except String Nat := do
  let w0 ← set_bits 0 2 127 120 false
  let w1 ← set_bits w0 subop 119 112 false
  let w2 ← set_bits w1 rd 95 93 false
  let w3 ← set_bits w2 rs1 92 90 false
  let w4 ← set_bits w3 re_bits 44 0 false
  let w5 ← set_bits w4 im_bits 89 45 false
  if rd = 0 then .error "writing to s0 is illegal (hard error)" else pure w5

theorem encI_ok {subop rd rs1 re_bits im_bits : Nat} (hsub : subop < 256)
    (hrd : rd < 8) (hrs1 : rs1 < 8) (hre : re_bits < 2 ^ 45) (him : im_bits < 2 ^ 45)
    (hrd0 : rd ≠ 0) :
    encI subop rd rs1 re_bits im_bits
      = .ok (2 * 2 ^ 120 + subop * 2 ^ 112 + rd * 2 ^ 93 + rs1 * 2 ^ 90
          + re_bits + im_bits * 2 ^ 45) := by
  unfold encI
  refine bind_set_bits_step (by norm_num) (by norm_num) (by norm_num) ?_
  refine bind_set_bits_step (by omega) (by omega) (by omega) ?_
  refine bind_set_bits_step (by omega) (by omega) (by omega) ?_
  refine bind_set_bits_step (by omega) (by omega) (by omega) ?_
  refine bind_set_bits_step (by omega) (by omega) (by omega) ?_
  refine bind_set_bits_step (by omega) (by omega) (by omega) ?_
  exact encoder_finish hrd0 (by omega)

/-- The J-type branch (`jrel`): opcode `0x03`, subop `0x00`, `rs1`
hard-encoded to register 1 in bits 95:93, then the signed 33-bit
`offs33` in bits 92:60. -/
def encJ (offs : Int) : Except String Nat := do
  let w0 ← set_bits 0 3 127 120 false
  let w1 ← set_bits w0 0 119 112 false
  let w2 ← set_bits w1 1 95 93 false
  let w3 ← set_bits w2 offs 92 60 true
  pure w3

theorem encJ_ok {offs : Int} {u : Nat}
    (h1 : -((2 : Int) ^ 32) ≤ offs) (h2 : offs ≤ (2 : Int) ^ 32 - 1)
    (hu : u = (if offs < 0 then (2 : Int) ^ 33 + offs else offs).toNat) :
    encJ offs = .ok (3 * 2 ^ 120 + 2 ^ 93 + u * 2 ^ 60) := by
  unfold encJ
  refine bind_set_bits_step (by norm_num) (by norm_num) (by norm_num) ?_
  refine bind_set_bits_step (by norm_num) (by norm_num) (by omega) ?_
  refine bind_set_bits_step (by norm_num) (by norm_num) (by omega) ?_
  refine bind_set_bits_signed_step (by exact_mod_cast h1) (by exact_mod_cast h2)
    (by omega) ?_
  refine pure_finish ?_
  subst hu
  norm_num
  omega

/-- The `vld`/`vst` branch of the S-type family.  The leading guards are
the `parse_int` range checks (4-bit `mbid`, 1-bit `rc`, 16-bit `idx16`
and `len16`) and the explicit `0 ≤ mbid < 4` bank check, in source
order; then opcode `0x04`, `subop`, `FLAGS16.rc` in bit 111, `reg3`,
`mbid`, `idx16` into `i16` (88:73), `j16 = 0` (72:57) and `len16`
(56:41). -/
def encS_vldvst (subop reg3 mbid rc idx16 len16 : Nat) : Except String Nat :=
  if 15 < mbid then .error "integer does not fit in 4-bit unsigned range"
  else if 4 ≤ mbid then .error "mbid out of range (must be 0..3 for 4 banks)"
  else if 1 < rc then .error "integer does not fit in 1-bit unsigned range"
  else if 65535 < idx16 then .error "integer does not fit in 16-bit unsigned range"
  else if 65535 < len16 then .error "integer does not fit in 16-bit unsigned range"
  else do
    let w0 ← set_bits 0 4 127 120 false
    let w1 ← set_bits w0 subop 119 112 false
    let w2 ← set_bits w1 rc 111 111 false
    let w3 ← set_bits w2 reg3 95 93 false
    let w4 ← set_bits w3 mbid 92 89 false
    let w5 ← set_bits w4 idx16 88 73 false
    let w6 ← set_bits w5 0 72 57 false
    let w7 ← set_bits w6 len16 56 41 false
    if reg3 = 0 then .error "writing to v0 is illegal (hard error)" else pure w7

theorem encS_vldvst_ok {subop reg3 mbid rc idx16 len16 : Nat} (hsub : subop < 256)
    (hreg : reg3 < 8) (hmb : mbid < 4) (hrc : rc < 2) (hidx : idx16 < 65536)
    (hlen : len16 < 65536) (hreg0 : reg3 ≠ 0) :
    encS_vldvst subop reg3 mbid rc idx16 len16
      = .ok (4 * 2 ^ 120 + subop * 2 ^ 112 + rc * 2 ^ 111 + reg3 * 2 ^ 93
          + mbid * 2 ^ 89 + idx16 * 2 ^ 73 + len16 * 2 ^ 41) := by
  unfold encS_vldvst
  rw [if_neg (by omega), if_neg (by omega), if_neg (by omega), if_neg (by omega),
    if_neg (by omega)]
  refine bind_set_bits_step (by norm_num) (by norm_num) (by norm_num) ?_
  refine bind_set_bits_step (by omega) (by omega) (by omega) ?_
  refine bind_set_bits_step (by omega) (by omega) (by omega) ?_
  refine bind_set_bits_step (by omega) (by omega) (by omega) ?_
  refine bind_set_bits_step (by omega) (by omega) (by omega) ?_
  refine bind_set_bits_step (by omega) (by omega) (by omega) ?_
  refine bind_set_bits_step (by omega) (by omega) (by omega) ?_
  refine bind_set_bits_step (by omega) (by omega) (by omega) ?_
  exact encoder_finish hreg0 (by omega)

/-- The `sld.xy` branch: opcode `0x04`, subop `0x02`, `reg3`, `mbid`,
`x16` into `i16` (88:73), `y16` into `j16` (72:57), `len16 = 0`; the
destination-register-zero check follows. -/
def encS_sldxy (reg3 mbid x16 y16 : Nat) : Except String Nat :=
  if 15 < mbid then .error "integer does not fit in 4-bit unsigned range"
  else if 4 ≤ mbid then .error "mbid out of range (must be 0..3 for 4 banks)"
  else if 65535 < x16 then .error "integer does not fit in 16-bit unsigned range"
  else if 65535 < y16 then .error "integer does not fit in 16-bit unsigned range"
  else do
    let w0 ← set_bits 0 4 127 120 false
    let w1 ← set_bits w0 2 119 112 false
    let w2 ← set_bits w1 reg3 95 93 false
    let w3 ← set_bits w2 mbid 92 89 false
    let w4 ← set_bits w3 x16 88 73 false
    let w5 ← set_bits w4 y16 72 57 false
    let w6 ← set_bits w5 0 56 41 false
    if reg3 = 0 then .error "writing to s0 is illegal (hard error)" else pure w6

theorem encS_sldxy_ok {reg3 mbid x16 y16 : Nat}
    (hreg : reg3 < 8) (hmb : mbid < 4) (hx : x16 < 65536) (hy : y16 < 65536)
    (hreg0 : reg3 ≠ 0) :
    encS_sldxy reg3 mbid x16 y16
      = .ok (4 * 2 ^ 120 + 2 * 2 ^ 112 + reg3 * 2 ^ 93 + mbid * 2 ^ 89
          + x16 * 2 ^ 73 + y16 * 2 ^ 57) := by
  unfold encS_sldxy
  rw [if_neg (by omega), if_neg (by omega), if_neg (by omega), if_neg (by omega)]
  refine bind_set_bits_step (by norm_num) (by norm_num) (by norm_num) ?_
  refine bind_set_bits_step (by norm_num) (by norm_num) (by omega) ?_
  refine bind_set_bits_step (by omega) (by omega) (by omega) ?_
  refine bind_set_bits_step (by omega) (by omega) (by omega) ?_
  refine bind_set_bits_step (by omega) (by omega) (by omega) ?_
  refine bind_set_bits_step (by omega) (by omega) (by omega) ?_
  refine bind_set_bits_step (by norm_num) (by norm_num) (by omega) ?_
  exact encoder_finish hreg0 (by omega)

/-- The `sst.xy` branch: like `sld.xy` with subop `0x03`, but with no
register-zero check (a store reads `reg3`; the source deliberately does
not forbid storing from `s0`). -/
def encS_sstxy (reg3 mbid x16 y16 : Nat) : Except String Nat :=
  if 15 < mbid then .error "integer does not fit in 4-bit unsigned range"
  else if 4 ≤ mbid then .error "mbid out of range (must be 0..3 for 4 banks)"
  else if 65535 < x16 then .error "integer does not fit in 16-bit unsigned range"
  else if 65535 < y16 then .error "integer does not fit in 16-bit unsigned range"
  else do
    let w0 ← set_bits 0 4 127 120 false
    let w1 ← set_bits w0 3 119 112 false
    let w2 ← set_bits w1 reg3 95 93 false
    let w3 ← set_bits w2 mbid 92 89 false
    let w4 ← set_bits w3 x16 88 73 false
    let w5 ← set_bits w4 y16 72 57 false
    let w6 ← set_bits w5 0 56 41 false
    pure w6

theorem encS_sstxy_ok {reg3 mbid x16 y16 : Nat}
    (hreg : reg3 < 8) (hmb : mbid < 4) (hx : x16 < 65536) (hy : y16 < 65536) :
    encS_sstxy reg3 mbid x16 y16
      = .ok (4 * 2 ^ 120 + 3 * 2 ^ 112 + reg3 * 2 ^ 93 + mbid * 2 ^ 89
          + x16 * 2 ^ 73 + y16 * 2 ^ 57) := by
  unfold encS_sstxy
  rw [if_neg (by omega), if_neg (by omega), if_neg (by omega), if_neg (by omega)]
  refine bind_set_bits_step (by norm_num) (by norm_num) (by norm_num) ?_
  refine bind_set_bits_step (by norm_num) (by norm_num) (by omega) ?_
  refine bind_set_bits_step (by omega) (by omega) (by omega) ?_
  refine bind_set_bits_step (by omega) (by omega) (by omega) ?_
  refine bind_set_bits_step (by omega) (by omega) (by omega) ?_
  refine bind_set_bits_step (by omega) (by omega) (by omega) ?_
  refine bind_set_bits_step (by norm_num) (by norm_num) (by omega) ?_
  exact pure_finish (by omega)

/-- `get_bits_sum` with the word-decomposition given as an equation, for
use with explicit high/low parts. -/
theorem get_bits_of_eq (hp low : Nat) {w mid : Nat} (hi lo : Nat)
    (hw : w = hp * 2 ^ (hi + 1) + mid * 2 ^ lo + low) (hlo : lo ≤ hi)
    (hmid : mid < 2 ^ (hi - lo + 1)) (hlow : low < 2 ^ lo) :
    get_bits w hi lo = mid := by
  rw [hw]
  exact get_bits_sum hp mid low hi lo hlo hmid hlow

/-- Decoding, at the emulator's `exec_r` bit positions, of the word
assembled for an R-type instruction; bits 111:98 and 86:0 are zero. -/
theorem decode_R {subop mapcode rd rs1 rs2 : Nat} (hsub : subop < 256)
    (hmap : mapcode < 4) (hrd : rd < 8) (hrs1 : rs1 < 8) (hrs2 : rs2 < 8) :
    get_bits (2 ^ 120 + subop * 2 ^ 112 + mapcode * 2 ^ 96 + rd * 2 ^ 93
        + rs1 * 2 ^ 90 + rs2 * 2 ^ 87) 127 120 = 1
    ∧ get_bits (2 ^ 120 + subop * 2 ^ 112 + mapcode * 2 ^ 96 + rd * 2 ^ 93
        + rs1 * 2 ^ 90 + rs2 * 2 ^ 87) 119 112 = subop
    ∧ get_bits (2 ^ 120 + subop * 2 ^ 112 + mapcode * 2 ^ 96 + rd * 2 ^ 93
        + rs1 * 2 ^ 90 + rs2 * 2 ^ 87) 97 96 = mapcode
    ∧ get_bits (2 ^ 120 + subop * 2 ^ 112 + mapcode * 2 ^ 96 + rd * 2 ^ 93
        + rs1 * 2 ^ 90 + rs2 * 2 ^ 87) 95 93 = rd
    ∧ get_bits (2 ^ 120 + subop * 2 ^ 112 + mapcode * 2 ^ 96 + rd * 2 ^ 93
        + rs1 * 2 ^ 90 + rs2 * 2 ^ 87) 92 90 = rs1
    ∧ get_bits (2 ^ 120 + subop * 2 ^ 112 + mapcode * 2 ^ 96 + rd * 2 ^ 93
        + rs1 * 2 ^ 90 + rs2 * 2 ^ 87) 89 87 = rs2
    ∧ get_bits (2 ^ 120 + subop * 2 ^ 112 + mapcode * 2 ^ 96 + rd * 2 ^ 93
        + rs1 * 2 ^ 90 + rs2 * 2 ^ 87) 111 98 = 0
    ∧ get_bits (2 ^ 120 + subop * 2 ^ 112 + mapcode * 2 ^ 96 + rd * 2 ^ 93
        + rs1 * 2 ^ 90 + rs2 * 2 ^ 87) 86 0 = 0 := by
  refine ⟨?_, ?_, ?_, ?_, ?_, ?_, ?_, ?_⟩
  · exact get_bits_of_eq 0
      (subop * 2 ^ 112 + mapcode * 2 ^ 96 + rd * 2 ^ 93 + rs1 * 2 ^ 90 + rs2 * 2 ^ 87)
      127 120 (by omega) (by omega) (by omega) (by omega)
  · exact get_bits_of_eq 1
      (mapcode * 2 ^ 96 + rd * 2 ^ 93 + rs1 * 2 ^ 90 + rs2 * 2 ^ 87)
      119 112 (by omega) (by omega) (by omega) (by omega)
  · exact get_bits_of_eq (2 ^ 22 + subop * 2 ^ 14)
      (rd * 2 ^ 93 + rs1 * 2 ^ 90 + rs2 * 2 ^ 87)
      97 96 (by omega) (by omega) (by omega) (by omega)
  · exact get_bits_of_eq (2 ^ 24 + subop * 2 ^ 16 + mapcode)
      (rs1 * 2 ^ 90 + rs2 * 2 ^ 87)
      95 93 (by omega) (by omega) (by omega) (by omega)
  · exact get_bits_of_eq (2 ^ 27 + subop * 2 ^ 19 + mapcode * 2 ^ 3 + rd)
      (rs2 * 2 ^ 87)
      92 90 (by omega) (by omega) (by omega) (by omega)
  · exact get_bits_of_eq (2 ^ 30 + subop * 2 ^ 22 + mapcode * 2 ^ 6 + rd * 2 ^ 3 + rs1)
      0 89 87 (by omega) (by omega) (by omega) (by omega)
  · exact get_bits_of_eq (2 ^ 8 + subop)
      (mapcode * 2 ^ 96 + rd * 2 ^ 93 + rs1 * 2 ^ 90 + rs2 * 2 ^ 87)
      111 98 (by omega) (by omega) (by omega) (by omega)
  · exact get_bits_of_eq
      (2 ^ 33 + subop * 2 ^ 25 + mapcode * 2 ^ 9 + rd * 2 ^ 6 + rs1 * 2 ^ 3 + rs2)
      0 86 0 (by omega) (by omega) (by omega) (by omega)

/-- Decoding of the assembled I-type word at the `exec_i` positions;
`flags16` (111:96) is zero and the two 45-bit immediate halves sit at
bits 44:0 and 89:45 of `imm90 = get_bits w 89 0`. -/
theorem decode_I {subop rd rs1 re_bits im_bits : Nat} (hsub : subop < 256)
    (hrd : rd < 8) (hrs1 : rs1 < 8) (hre : re_bits < 2 ^ 45) (him : im_bits < 2 ^ 45) :
    get_bits (2 * 2 ^ 120 + subop * 2 ^ 112 + rd * 2 ^ 93 + rs1 * 2 ^ 90
        + re_bits + im_bits * 2 ^ 45) 127 120 = 2
    ∧ get_bits (2 * 2 ^ 120 + subop * 2 ^ 112 + rd * 2 ^ 93 + rs1 * 2 ^ 90
        + re_bits + im_bits * 2 ^ 45) 119 112 = subop
    ∧ get_bits (2 * 2 ^ 120 + subop * 2 ^ 112 + rd * 2 ^ 93 + rs1 * 2 ^ 90
        + re_bits + im_bits * 2 ^ 45) 95 93 = rd
    ∧ get_bits (2 * 2 ^ 120 + subop * 2 ^ 112 + rd * 2 ^ 93 + rs1 * 2 ^ 90
        + re_bits + im_bits * 2 ^ 45) 92 90 = rs1
    ∧ get_bits (2 * 2 ^ 120 + subop * 2 ^ 112 + rd * 2 ^ 93 + rs1 * 2 ^ 90
        + re_bits + im_bits * 2 ^ 45) 44 0 = re_bits
    ∧ get_bits (2 * 2 ^ 120 + subop * 2 ^ 112 + rd * 2 ^ 93 + rs1 * 2 ^ 90
        + re_bits + im_bits * 2 ^ 45) 89 45 = im_bits
    ∧ get_bits (2 * 2 ^ 120 + subop * 2 ^ 112 + rd * 2 ^ 93 + rs1 * 2 ^ 90
        + re_bits + im_bits * 2 ^ 45) 111 96 = 0 := by
  refine ⟨?_, ?_, ?_, ?_, ?_, ?_, ?_⟩
  · exact get_bits_of_eq 0
      (subop * 2 ^ 112 + rd * 2 ^ 93 + rs1 * 2 ^ 90 + re_bits + im_bits * 2 ^ 45)
      127 120 (by omega) (by omega) (by omega) (by omega)
  · exact get_bits_of_eq 2
      (rd * 2 ^ 93 + rs1 * 2 ^ 90 + re_bits + im_bits * 2 ^ 45)
      119 112 (by omega) (by omega) (by omega) (by omega)
  · exact get_bits_of_eq (2 * 2 ^ 24 + subop * 2 ^ 16)
      (rs1 * 2 ^ 90 + re_bits + im_bits * 2 ^ 45)
      95 93 (by omega) (by omega) (by omega) (by omega)
  · exact get_bits_of_eq (2 * 2 ^ 27 + subop * 2 ^ 19 + rd)
      (re_bits + im_bits * 2 ^ 45)
      92 90 (by omega) (by omega) (by omega) (by omega)
  · exact get_bits_of_eq
      (2 * 2 ^ 75 + subop * 2 ^ 67 + rd * 2 ^ 48 + rs1 * 2 ^ 45 + im_bits)
      0 44 0 (by omega) (by omega) (by omega) (by omega)
  · exact get_bits_of_eq (2 * 2 ^ 30 + subop * 2 ^ 22 + rd * 2 ^ 3 + rs1)
      re_bits 89 45 (by omega) (by omega) (by omega) (by omega)
  · exact get_bits_of_eq (2 * 2 ^ 8 + subop)
      (rd * 2 ^ 93 + rs1 * 2 ^ 90 + re_bits + im_bits * 2 ^ 45)
      111 96 (by omega) (by omega) (by omega) (by omega)

/-- Decoding of the assembled J-type word: opcode, subop, the fixed
`rs1 = 1` field, and zero flag/reserved regions. -/
theorem decode_J {u : Nat} (hu : u < 2 ^ 33) :
    get_bits (3 * 2 ^ 120 + 2 ^ 93 + u * 2 ^ 60) 127 120 = 3
    ∧ get_bits (3 * 2 ^ 120 + 2 ^ 93 + u * 2 ^ 60) 119 112 = 0
    ∧ get_bits (3 * 2 ^ 120 + 2 ^ 93 + u * 2 ^ 60) 95 93 = 1
    ∧ get_bits (3 * 2 ^ 120 + 2 ^ 93 + u * 2 ^ 60) 92 60 = u
    ∧ get_bits (3 * 2 ^ 120 + 2 ^ 93 + u * 2 ^ 60) 111 96 = 0
    ∧ get_bits (3 * 2 ^ 120 + 2 ^ 93 + u * 2 ^ 60) 59 0 = 0 := by
  refine ⟨?_, ?_, ?_, ?_, ?_, ?_⟩
  · exact get_bits_of_eq 0 (2 ^ 93 + u * 2 ^ 60)
      127 120 (by omega) (by omega) (by omega) (by omega)
  · exact get_bits_of_eq 3 (2 ^ 93 + u * 2 ^ 60)
      119 112 (by omega) (by omega) (by omega) (by omega)
  · exact get_bits_of_eq (3 * 2 ^ 24) (u * 2 ^ 60)
      95 93 (by omega) (by omega) (by omega) (by omega)
  · exact get_bits_of_eq (3 * 2 ^ 27 + 1) 0
      92 60 (by omega) (by omega) (by omega) (by omega)
  · exact get_bits_of_eq (3 * 2 ^ 8) (2 ^ 93 + u * 2 ^ 60)
      111 96 (by omega) (by omega) (by omega) (by omega)
  · exact get_bits_of_eq (3 * 2 ^ 60 + 2 ^ 33 + u) 0
      59 0 (by omega) (by omega) (by omega) (by omega)

/-- The emulator's signed decode of the `offs33` field recovers the
offset the assembler encoded in two's complement. -/
theorem decode_J_offs {offs : Int} {u : Nat}
    (h1 : -((2 : Int) ^ 32) ≤ offs) (h2 : offs ≤ (2 : Int) ^ 32 - 1)
    (hu : u = (if offs < 0 then (2 : Int) ^ 33 + offs else offs).toNat) :
    get_bits_signed (3 * 2 ^ 120 + 2 ^ 93 + u * 2 ^ 60) 92 60 = offs := by
  have hult : u < 2 ^ 33 := by
    rcases lt_or_ge offs 0 with hneg | hpos
    · rw [if_pos hneg] at hu
      omega
    · rw [if_neg (not_lt.mpr hpos)] at hu
      omega
  have hval := (decode_J hult).2.2.2.1
  unfold get_bits_signed
  rw [hval]
  show (if u &&& 1 <<< 32 ≠ 0 then (u : Int) - 2 ^ 33 else (u : Int)) = offs
  rw [and_one_shiftLeft]
  have htb : u.testBit 32 = decide (u / 2 ^ 32 % 2 = 1) := Nat.testBit_to_div_mod
  rcases lt_or_ge offs 0 with hneg | hpos
  · rw [if_pos hneg] at hu
    have hbit : u / 2 ^ 32 % 2 = 1 := by omega
    rw [htb, hbit]
    norm_num
    omega
  · rw [if_neg (not_lt.mpr hpos)] at hu
    have hbit : u / 2 ^ 32 % 2 = 0 := by omega
    rw [htb, hbit]
    norm_num
    omega

/-- Decoding of the assembled `vld`/`vst` word at the `exec_s` positions:
`rc` in bit 111, `reg3`, `mbid`, `i16 = idx16`, `j16 = 0`, `len16`;
bits 110:96 and 40:0 are zero. -/
theorem decode_S_vldvst {subop reg3 mbid rc idx16 len16 : Nat} (hsub : subop < 256)
    (hreg : reg3 < 8) (hmb : mbid < 4) (hrc : rc < 2) (hidx : idx16 < 65536)
    (hlen : len16 < 65536) :
    get_bits (4 * 2 ^ 120 + subop * 2 ^ 112 + rc * 2 ^ 111 + reg3 * 2 ^ 93
        + mbid * 2 ^ 89 + idx16 * 2 ^ 73 + len16 * 2 ^ 41) 127 120 = 4
    ∧ get_bits (4 * 2 ^ 120 + subop * 2 ^ 112 + rc * 2 ^ 111 + reg3 * 2 ^ 93
        + mbid * 2 ^ 89 + idx16 * 2 ^ 73 + len16 * 2 ^ 41) 119 112 = subop
    ∧ get_bits (4 * 2 ^ 120 + subop * 2 ^ 112 + rc * 2 ^ 111 + reg3 * 2 ^ 93
        + mbid * 2 ^ 89 + idx16 * 2 ^ 73 + len16 * 2 ^ 41) 111 111 = rc
    ∧ get_bits (4 * 2 ^ 120 + subop * 2 ^ 112 + rc * 2 ^ 111 + reg3 * 2 ^ 93
        + mbid * 2 ^ 89 + idx16 * 2 ^ 73 + len16 * 2 ^ 41) 95 93 = reg3
    ∧ get_bits (4 * 2 ^ 120 + subop * 2 ^ 112 + rc * 2 ^ 111 + reg3 * 2 ^ 93
        + mbid * 2 ^ 89 + idx16 * 2 ^ 73 + len16 * 2 ^ 41) 92 89 = mbid
    ∧ get_bits (4 * 2 ^ 120 + subop * 2 ^ 112 + rc * 2 ^ 111 + reg3 * 2 ^ 93
        + mbid * 2 ^ 89 + idx16 * 2 ^ 73 + len16 * 2 ^ 41) 88 73 = idx16
    ∧ get_bits (4 * 2 ^ 120 + subop * 2 ^ 112 + rc * 2 ^ 111 + reg3 * 2 ^ 93
        + mbid * 2 ^ 89 + idx16 * 2 ^ 73 + len16 * 2 ^ 41) 72 57 = 0
    ∧ get_bits (4 * 2 ^ 120 + subop * 2 ^ 112 + rc * 2 ^ 111 + reg3 * 2 ^ 93
        + mbid * 2 ^ 89 + idx16 * 2 ^ 73 + len16 * 2 ^ 41) 56 41 = len16
    ∧ get_bits (4 * 2 ^ 120 + subop * 2 ^ 112 + rc * 2 ^ 111 + reg3 * 2 ^ 93
        + mbid * 2 ^ 89 + idx16 * 2 ^ 73 + len16 * 2 ^ 41) 110 96 = 0
    ∧ get_bits (4 * 2 ^ 120 + subop * 2 ^ 112 + rc * 2 ^ 111 + reg3 * 2 ^ 93
        + mbid * 2 ^ 89 + idx16 * 2 ^ 73 + len16 * 2 ^ 41) 40 0 = 0 := by
  refine ⟨?_, ?_, ?_, ?_, ?_, ?_, ?_, ?_, ?_, ?_⟩
  · exact get_bits_of_eq 0
      (subop * 2 ^ 112 + rc * 2 ^ 111 + reg3 * 2 ^ 93 + mbid * 2 ^ 89
        + idx16 * 2 ^ 73 + len16 * 2 ^ 41)
      127 120 (by omega) (by omega) (by omega) (by omega)
  · exact get_bits_of_eq 4
      (rc * 2 ^ 111 + reg3 * 2 ^ 93 + mbid * 2 ^ 89 + idx16 * 2 ^ 73 + len16 * 2 ^ 41)
      119 112 (by omega) (by omega) (by omega) (by omega)
  · exact get_bits_of_eq (4 * 2 ^ 8 + subop)
      (reg3 * 2 ^ 93 + mbid * 2 ^ 89 + idx16 * 2 ^ 73 + len16 * 2 ^ 41)
      111 111 (by omega) (by omega) (by omega) (by omega)
  · exact get_bits_of_eq (4 * 2 ^ 24 + subop * 2 ^ 16 + rc * 2 ^ 15)
      (mbid * 2 ^ 89 + idx16 * 2 ^ 73 + len16 * 2 ^ 41)
      95 93 (by omega) (by omega) (by omega) (by omega)
  · exact get_bits_of_eq (4 * 2 ^ 27 + subop * 2 ^ 19 + rc * 2 ^ 18 + reg3)
      (idx16 * 2 ^ 73 + len16 * 2 ^ 41)
      92 89 (by omega) (by omega) (by omega) (by omega)
  · exact get_bits_of_eq
      (4 * 2 ^ 31 + subop * 2 ^ 23 + rc * 2 ^ 22 + reg3 * 2 ^ 4 + mbid)
      (len16 * 2 ^ 41)
      88 73 (by omega) (by omega) (by omega) (by omega)
  · exact get_bits_of_eq
      (4 * 2 ^ 47 + subop * 2 ^ 39 + rc * 2 ^ 38 + reg3 * 2 ^ 20 + mbid * 2 ^ 16 + idx16)
      (len16 * 2 ^ 41)
      72 57 (by omega) (by omega) (by omega) (by omega)
  · exact get_bits_of_eq
      (4 * 2 ^ 63 + subop * 2 ^ 55 + rc * 2 ^ 54 + reg3 * 2 ^ 36 + mbid * 2 ^ 32
        + idx16 * 2 ^ 16)
      0 56 41 (by omega) (by omega) (by omega) (by omega)
  · exact get_bits_of_eq (4 * 2 ^ 9 + subop * 2 + rc)
      (reg3 * 2 ^ 93 + mbid * 2 ^ 89 + idx16 * 2 ^ 73 + len16 * 2 ^ 41)
      110 96 (by omega) (by omega) (by omega) (by omega)
  · exact get_bits_of_eq
      (4 * 2 ^ 79 + subop * 2 ^ 71 + rc * 2 ^ 70 + reg3 * 2 ^ 52 + mbid * 2 ^ 48
        + idx16 * 2 ^ 32 + len16)
      0 40 0 (by omega) (by omega) (by omega) (by omega)

/-- Decoding of the assembled `sld.xy`/`sst.xy` word (`subop` is 2 or 3):
`reg3`, `mbid`, `i16 = x16`, `j16 = y16`, `len16 = 0`; bits 111:96 and
40:0 are zero. -/
theorem decode_S_xy {subop reg3 mbid x16 y16 : Nat} (hsub : subop < 256)
    (hreg : reg3 < 8) (hmb : mbid < 4) (hx : x16 < 65536) (hy : y16 < 65536) :
    get_bits (4 * 2 ^ 120 + subop * 2 ^ 112 + reg3 * 2 ^ 93 + mbid * 2 ^ 89
        + x16 * 2 ^ 73 + y16 * 2 ^ 57) 127 120 = 4
    ∧ get_bits (4 * 2 ^ 120 + subop * 2 ^ 112 + reg3 * 2 ^ 93 + mbid * 2 ^ 89
        + x16 * 2 ^ 73 + y16 * 2 ^ 57) 119 112 = subop
    ∧ get_bits (4 * 2 ^ 120 + subop * 2 ^ 112 + reg3 * 2 ^ 93 + mbid * 2 ^ 89
        + x16 * 2 ^ 73 + y16 * 2 ^ 57) 95 93 = reg3
    ∧ get_bits (4 * 2 ^ 120 + subop * 2 ^ 112 + reg3 * 2 ^ 93 + mbid * 2 ^ 89
        + x16 * 2 ^ 73 + y16 * 2 ^ 57) 92 89 = mbid
    ∧ get_bits (4 * 2 ^ 120 + subop * 2 ^ 112 + reg3 * 2 ^ 93 + mbid * 2 ^ 89
        + x16 * 2 ^ 73 + y16 * 2 ^ 57) 88 73 = x16
    ∧ get_bits (4 * 2 ^ 120 + subop * 2 ^ 112 + reg3 * 2 ^ 93 + mbid * 2 ^ 89
        + x16 * 2 ^ 73 + y16 * 2 ^ 57) 72 57 = y16
    ∧ get_bits (4 * 2 ^ 120 + subop * 2 ^ 112 + reg3 * 2 ^ 93 + mbid * 2 ^ 89
        + x16 * 2 ^ 73 + y16 * 2 ^ 57) 56 41 = 0
    ∧ get_bits (4 * 2 ^ 120 + subop * 2 ^ 112 + reg3 * 2 ^ 93 + mbid * 2 ^ 89
        + x16 * 2 ^ 73 + y16 * 2 ^ 57) 111 96 = 0
    ∧ get_bits (4 * 2 ^ 120 + subop * 2 ^ 112 + reg3 * 2 ^ 93 + mbid * 2 ^ 89
        + x16 * 2 ^ 73 + y16 * 2 ^ 57) 40 0 = 0 := by
  refine ⟨?_, ?_, ?_, ?_, ?_, ?_, ?_, ?_, ?_⟩
  · exact get_bits_of_eq 0
      (subop * 2 ^ 112 + reg3 * 2 ^ 93 + mbid * 2 ^ 89 + x16 * 2 ^ 73 + y16 * 2 ^ 57)
      127 120 (by omega) (by omega) (by omega) (by omega)
  · exact get_bits_of_eq 4
      (reg3 * 2 ^ 93 + mbid * 2 ^ 89 + x16 * 2 ^ 73 + y16 * 2 ^ 57)
      119 112 (by omega) (by omega) (by omega) (by omega)
  · exact get_bits_of_eq (4 * 2 ^ 24 + subop * 2 ^ 16)
      (mbid * 2 ^ 89 + x16 * 2 ^ 73 + y16 * 2 ^ 57)
      95 93 (by omega) (by omega) (by omega) (by omega)
  · exact get_bits_of_eq (4 * 2 ^ 27 + subop * 2 ^ 19 + reg3)
      (x16 * 2 ^ 73 + y16 * 2 ^ 57)
      92 89 (by omega) (by omega) (by omega) (by omega)
  · exact get_bits_of_eq (4 * 2 ^ 31 + subop * 2 ^ 23 + reg3 * 2 ^ 4 + mbid)
      (y16 * 2 ^ 57)
      88 73 (by omega) (by omega) (by omega) (by omega)
  · exact get_bits_of_eq
      (4 * 2 ^ 47 + subop * 2 ^ 39 + reg3 * 2 ^ 20 + mbid * 2 ^ 16 + x16)
      0 72 57 (by omega) (by omega) (by omega) (by omega)
  · exact get_bits_of_eq
      (4 * 2 ^ 63 + subop * 2 ^ 55 + reg3 * 2 ^ 36 + mbid * 2 ^ 32 + x16 * 2 ^ 16 + y16)
      0 56 41 (by omega) (by omega) (by omega) (by omega)
  · exact get_bits_of_eq (4 * 2 ^ 8 + subop)
      (reg3 * 2 ^ 93 + mbid * 2 ^ 89 + x16 * 2 ^ 73 + y16 * 2 ^ 57)
      111 96 (by omega) (by omega) (by omega) (by omega)
  · exact get_bits_of_eq
      (4 * 2 ^ 79 + subop * 2 ^ 71 + reg3 * 2 ^ 52 + mbid * 2 ^ 48 + x16 * 2 ^ 32
        + y16 * 2 ^ 16)
      0 40 0 (by omega) (by omega) (by omega) (by omega)

/-! ## Machine state, from `lapu128_emulator.py` -/

/-- `MachineConfig` from the emulator. -/
structure MachineConfig where
  vlen : Nat := 8
  banks : Nat := 4
  rows_mult : Nat := 1
  cols_mult : Nat := 1
  pred_uses_real_only : Bool := true
deriving DecidableEq, Repr

/-- `Machine` from the emulator.  `pc` is an `Int` because `jrel` may
move it below zero (Python allows that; the run loop then terminates). -/
structure Machine where
  cfg : MachineConfig
  pc : Int
  s : List Cx
  v : List (List Cx)
  bank : List (List (List Cx))
  rows : Nat
  cols : Nat
deriving DecidableEq, Repr

/-- `Machine.__init__`: all architectural storage zero-initialised. -/
def Machine.init (cfg : MachineConfig) : Machine :=
  let rows := cfg.rows_mult * cfg.vlen
  let cols := cfg.cols_mult * cfg.vlen
  { cfg := cfg
    pc := 0
    s := List.replicate 8 ((0, 0) : Cx)
    v := List.replicate 8 (List.replicate cfg.vlen ((0, 0) : Cx))
    bank := List.replicate cfg.banks
      (List.replicate rows (List.replicate cols ((0, 0) : Cx)))
    rows := rows
    cols := cols }

/-- `Machine.write_s`: hard error on `s0`, saturate both components. -/
def Machine.write_s (m : Machine) (idx : Nat) (val : Cx) : Except String Machine :=
  if idx = 0 then .error "Illegal write to s0 (architectural zero)"
  else .ok { m with s := m.s.set idx (sat64 val.1, sat64 val.2) }

/-- `Machine.write_v`: hard error on `v0`, length check, saturate lanes. -/
def Machine.write_v (m : Machine) (idx : Nat) (vec : List Cx) : Except String Machine :=
  if idx = 0 then .error "Illegal write to v0 (architectural zero)"
  else if vec.length ≠ m.cfg.vlen then .error "Vector length mismatch"
  else .ok { m with v := m.v.set idx (vec.map fun p => (sat64 p.1, sat64 p.2)) }

/-- `Machine.pred_true`: test `s1` (real part only by default). -/
def Machine.pred_true (m : Machine) : Bool :=
  let z := m.s.getD 1 (0, 0)
  if m.cfg.pred_uses_real_only then z.1 != 0
  else z.1 != 0 || z.2 != 0

/-! ## Instruction execution -/

/-- Mapping codes (flags bits 97:96). -/
def MAP_SS_to_S : Nat := 0
def MAP_VV_to_V : Nat := 1
def MAP_VV_to_S : Nat := 2
def MAP_VS_to_V : Nat := 3

/-- `exec_r` from the emulator.  `csqrt_fn` stands for the
floating-point-based `c_sqrt`, which is a parameter of the model. -/
def exec_r (csqrt_fn : Cx → Cx) (m : Machine) (w : Nat) : Except String Machine :=
  let subop := get_bits w 119 112
  let mapbits := get_bits w 97 96
  let rd := get_bits w 95 93
  let rs1 := get_bits w 92 90
  let rs2 := get_bits w 89 87
  if mapbits = MAP_SS_to_S then
    -- `subop in R_SCALAR_UNARY.values()` means `subop ≤ 0x07`
    if subop ∈ [0x00, 0x01, 0x02, 0x03, 0x04, 0x05, 0x06, 0x07] then
      let a := m.s.getD rs1 (0, 0)
      if subop = 0x00 then
        m.write_s rd (-(m.s.getD rs1 (0, 0)).1, -(m.s.getD rs1 (0, 0)).2)
      else if subop = 0x01 then m.write_s rd (c_conj a)
      else if subop = 0x02 then m.write_s rd (csqrt_fn a)
      else if subop = 0x03 then m.write_s rd (c_abs2 a, 0)
      else if subop = 0x04 then m.write_s rd (c_abs a, 0)
      else if subop = 0x05 then m.write_s rd (a.1, 0)
      else if subop = 0x06 then m.write_s rd (a.2, 0)
      else if subop = 0x07 then m.write_s rd (c_div ((2 ^ FRAC_BITS : Int), 0) a)
      else .error "Unknown scalar unary subop"
    else
      let a := m.s.getD rs1 (0, 0)
      let b := m.s.getD rs2 (0, 0)
      if subop = 0x08 then m.write_s rd (c_add a b)
      else if subop = 0x09 then m.write_s rd (c_sub a b)
      else if subop = 0x0A then m.write_s rd (c_mul a b)
      else if subop = 0x0B then m.write_s rd (c_div a b)
      else if subop = 0x0C then m.write_s rd (if c_abs2 a ≥ c_abs2 b then a else b)
      else if subop = 0x0D then m.write_s rd (if c_abs2 a ≤ c_abs2 b then a else b)
      else if subop = 0x0E then
        m.write_s rd (if a.1 < b.1 then (2 ^ FRAC_BITS : Int) else 0, 0)
      else if subop = 0x0F then
        m.write_s rd (if a.1 > b.1 then (2 ^ FRAC_BITS : Int) else 0, 0)
      else if subop = 0x10 then
        m.write_s rd (if a.1 ≤ b.1 then (2 ^ FRAC_BITS : Int) else 0, 0)
      else .error "Unknown scalar binary subop"
  else if mapbits = MAP_VV_to_V then
    let A := m.v.getD rs1 []
    let B := m.v.getD rs2 []
    -- the source tests `vconj` first, then the zipped binary lane ops
    if subop = 0x05 then m.write_v rd (A.map c_conj)
    else if subop = 0x00 then m.write_v rd (List.zipWith c_add A B)
    else if subop = 0x01 then m.write_v rd (List.zipWith c_sub A B)
    else if subop = 0x02 then m.write_v rd (List.zipWith c_mul A B)
    else if subop = 0x03 then
      -- vmac: read-before-write; `for i,(di,ai,bi) in enumerate(zip(D,A,B))`
      -- updates the zipped prefix of D and leaves any remainder unchanged
      let D0 := m.v.getD rd []
      let upd := List.zipWith (fun di (p : Cx × Cx) => c_add di (c_mul p.1 p.2))
        D0 (A.zip B)
      m.write_v rd (upd ++ D0.drop upd.length)
    else if subop = 0x04 then m.write_v rd (List.zipWith c_div A B)
    else .error "Unknown vector-lane subop"
  else if mapbits = MAP_VV_to_S then
    let A := m.v.getD rs1 []
    let B := m.v.getD rs2 []
    if subop = 0x00 then
      m.write_s rd ((A.zip B).foldl
        (fun acc p => c_add acc (c_mul (c_conj p.1) p.2)) (0, 0))
    else if subop = 0x01 then
      m.write_s rd ((A.zip B).foldl (fun acc p => c_add acc (c_mul p.1 p.2)) (0, 0))
    else if subop = 0x02 then
      -- iamax: `A[0]` raises IndexError on an empty vector
      match A with
      | [] => .error "list index out of range"
      | a0 :: rest =>
        let r := (List.enumFrom 1 rest).foldl
          (fun (st : Nat × Int) p =>
            if c_abs2 p.2 > st.2 then (p.1, c_abs2 p.2) else st)
          (0, c_abs2 a0)
        m.write_s rd (sat64 ((r.1 <<< FRAC_BITS : Nat) : Int), 0)
    else if subop = 0x03 then
      m.write_s rd (A.foldl (fun acc ai => c_add acc ai) (0, 0))
    else if subop = 0x04 then
      m.write_s rd (A.foldl (fun acc ai => add_q acc (c_abs ai)) 0, 0)
    else .error "Unknown reduction subop"
  else if mapbits = MAP_VS_to_V then
    let A := m.v.getD rs1 []
    let sB := m.s.getD rs2 (0, 0)
    if subop = 0x18 then m.write_v rd (A.map fun ai => c_add ai sB)
    else if subop = 0x19 then m.write_v rd (A.map fun ai => c_sub ai sB)
    else if subop = 0x1A then m.write_v rd (A.map fun ai => c_mul ai sB)
    else if subop = 0x1B then m.write_v rd (A.map fun ai => c_div ai sB)
    else .error "Unknown VxS subop"
  else .error "Unknown mapping bits"

/-- `q22_23_to_q32_32_pair`: split `imm90` into two 45-bit halves,
sign-extend (via `(val ^ sign) - sign`), scale by `2^(32-23)`, saturate. -/
def q22_23_to_q32_32_pair (imm90 : Nat) : Cx :=
  let sign_extend : Nat → Nat → Int := fun val bits =>
    (((val ^^^ (1 <<< (bits - 1))) : Nat) : Int) - (((1 <<< (bits - 1)) : Nat) : Int)
  let re45 := imm90 &&& ((1 <<< 45) - 1)
  let im45 := (imm90 >>> 45) &&& ((1 <<< 45) - 1)
  let re := sign_extend re45 45
  let im := sign_extend im45 45
  (sat64 (re * 2 ^ (32 - 23)), sat64 (im * 2 ^ (32 - 23)))

/-- `exec_i` from the emulator. -/
def exec_i (m : Machine) (w : Nat) : Except String Machine :=
  let subop := get_bits w 119 112
  let rd := get_bits w 95 93
  let rs1 := get_bits w 92 90
  let imm90 := get_bits w 89 0
  if subop = 0x00 then
    m.write_s rd (q22_23_to_q32_32_pair imm90)
  else if subop ∈ [0x01, 0x02, 0x03, 0x04, 0x05, 0x06] then
    let a := m.s.getD rs1 (0, 0)
    let cimm := q22_23_to_q32_32_pair imm90
    if subop = 0x01 then m.write_s rd (c_add a cimm)
    else if subop = 0x02 then m.write_s rd (c_mul a cimm)
    else if subop = 0x03 then m.write_s rd (c_sub a cimm)
    else if subop = 0x04 then m.write_s rd (c_div a cimm)
    else if subop = 0x05 then m.write_s rd (if c_abs2 a ≥ c_abs2 cimm then a else cimm)
    else m.write_s rd (if c_abs2 a ≤ c_abs2 cimm then a else cimm)
  else if subop = 0x10 then
    let a := m.s.getD rs1 (0, 0)
    let scale := (q22_23_to_q32_32_pair imm90).1
    m.write_s rd (mul_q a.1 scale, mul_q a.2 scale)
  else .error "Unknown I-type subop"

/-- `exec_j` from the emulator: predicated relative jump.  Both arms of
the source's in-range test assign the same `new_pc`, so the program
length does not affect the result. -/
def exec_j (m : Machine) (w : Nat) (_program_len : Nat) : Except String Machine :=
  let subop := get_bits w 119 112
  let offs := get_bits_signed w 92 60
  if subop ≠ 0x00 then .error "Unknown J subop"
  else if m.pred_true then .ok { m with pc := m.pc + offs }
  else .ok { m with pc := m.pc + 1 }

/-- In-place update `l[r][c] = v` of a two-dimensional list. -/
def set2 (l : List (List Cx)) (r c : Nat) (v : Cx) : List (List Cx) :=
  l.set r ((l.getD r []).set c v)

/-- Element read `bk[b][r][c]` with the all-zero default (all reads in
`exec_s` are range-guarded as in the source). -/
def bank_get (bk : List (List (List Cx))) (b r c : Nat) : Cx :=
  ((bk.getD b []).getD r []).getD c (0, 0)

/-- `exec_s` from the emulator: `vld`, `vst`, `sld.xy`, `sst.xy`.  Each
branch advances `pc` itself, as in the source. -/
def exec_s (m : Machine) (w : Nat) : Except String Machine :=
  let subop := get_bits w 119 112
  let rc := get_bits w 111 111
  let reg3 := get_bits w 95 93
  let mbid := get_bits w 92 89
  let i16 := get_bits w 88 73
  let j16 := get_bits w 72 57
  let len16 := get_bits w 56 41
  if mbid ≥ m.bank.length then .error "mbid out of range"
  else
    let rows := m.rows
    let cols := m.cols
    if subop = 0x00 then  -- vld
      let L := if len16 ≠ 0 then len16 else m.cfg.vlen
      do
        let seq ←
          if rc = 0 then
            let r := i16
            if r ≥ rows ∨ L > cols then throw "vld row range OOB"
            else pure ((List.range L).map fun c => bank_get m.bank mbid r c)
          else
            let c := i16
            if c ≥ cols ∨ L > rows then throw "vld col range OOB"
            else pure ((List.range L).map fun r => bank_get m.bank mbid r c)
        -- vec = [(0,0)]*vlen; vec[k] = seq[k] for k < min(L, vlen)
        let vec := (List.range m.cfg.vlen).map fun k =>
          if k < min L m.cfg.vlen then seq.getD k (0, 0) else (0, 0)
        let m2 ← m.write_v reg3 vec
        pure { m2 with pc := m2.pc + 1 }
    else if subop = 0x01 then  -- vst
      let L := if len16 ≠ 0 then len16 else m.cfg.vlen
      let src := m.v.getD reg3 []
      if rc = 0 then
        let r := i16
        if r ≥ rows ∨ L > cols then .error "vst row range OOB"
        else
          let newbank := (List.range L).foldl
            (fun bk c => bk.set mbid (set2 (bk.getD mbid []) r c
              (if c < m.cfg.vlen then src.getD c (0, 0) else (0, 0)))) m.bank
          .ok { m with bank := newbank, pc := m.pc + 1 }
      else
        let c := i16
        if c ≥ cols ∨ L > rows then .error "vst col range OOB"
        else
          let newbank := (List.range L).foldl
            (fun bk r => bk.set mbid (set2 (bk.getD mbid []) r c
              (if r < m.cfg.vlen then src.getD r (0, 0) else (0, 0)))) m.bank
          .ok { m with bank := newbank, pc := m.pc + 1 }
    else if subop = 0x02 then  -- sld.xy
      let x := i16
      let y := j16
      if y ≥ rows ∨ x ≥ cols then .error "sld.xy OOB"
      else do
        let m2 ← m.write_s reg3 (bank_get m.bank mbid y x)
        pure { m2 with pc := m2.pc + 1 }
    else if subop = 0x03 then  -- sst.xy
      let x := i16
      let y := j16
      if y ≥ rows ∨ x ≥ cols then .error "sst.xy OOB"
      else .ok { m with
        bank := m.bank.set mbid (set2 (m.bank.getD mbid []) y x (m.s.getD reg3 (0, 0)))
        pc := m.pc + 1 }
    else .error "Unknown S subop"

/-- `exec_one` from the emulator: dispatch on the opcode; R and I type
advance `pc` here, S and J manage `pc` themselves. -/
def exec_one (csqrt_fn : Cx → Cx) (m : Machine) (w : Nat) (program_len : Nat) :
    Except String Machine :=
  let opc := get_bits w 127 120
  if opc = 0x01 then do
    let m2 ← exec_r csqrt_fn m w
    pure { m2 with pc := m2.pc + 1 }
  else if opc = 0x02 then do
    let m2 ← exec_i m w
    pure { m2 with pc := m2.pc + 1 }
  else if opc = 0x03 then exec_j m w program_len
  else if opc = 0x04 then exec_s m w
  else .error "Unknown opcode"

/-! ## Lexer (`tokenize`) and label resolution, from `lapu128_as.py` -/

/-- The loop of `tokenize`: walk the characters with the current token
buffer `buf`, the parenthesis depth `paren`, and the output list `out`.
A `#` stops scanning immediately (flushing `buf`), whatever the
parenthesis depth; `(`/`)` adjust the depth (clamped at zero, Python's
`max(paren - 1, 0)`) and are kept in the buffer; `,`, space, tab, CR and
LF separate tokens only at depth zero; every other character (including
`;`) is accumulated. -/
def tokenizeAux : List Char → List Char → Nat → List (List Char) → List (List Char)
  | [], buf, _, out => if buf.isEmpty then out else out ++ [buf]
  | ch :: rest, buf, paren, out =>
    if ch = '#' then (if buf.isEmpty then out else out ++ [buf])
    else if ch = '(' then tokenizeAux rest (buf ++ [ch]) (paren + 1) out
    else if ch = ')' then tokenizeAux rest (buf ++ [ch]) (paren - 1) out
    else if paren = 0 ∧ ch ∈ [',', ' ', '\t', '\r', '\n'] then
      (if buf.isEmpty then tokenizeAux rest [] paren out
       else tokenizeAux rest [] paren (out ++ [buf]))
    else tokenizeAux rest (buf ++ [ch]) paren out

/-- `tokenize` from the assembler, on a line given as a character list. -/
def tokenize (line : List Char) : List (List Char) :=
  tokenizeAux line [] 0 []

/-- The comment stripping done by `assemble_text` during the label pass:
`raw.split('#', 1)[0]`, i.e. everything before the first `#` anywhere on
the line (parentheses are not considered). -/
def stripHashComment (cs : List Char) : List Char :=
  cs.takeWhile fun c => c ≠ '#'

/-- The label arm of `parse_imm_or_label` in `assemble_line`: an unknown
label is a hard error, a known one resolves to
`labels[tok] - pc_index`, the distance from the jump's own pc. -/
def resolve_label (labels : List (String × Nat)) (tok : String) (pc_index : Nat) :
    Except String Int :=
  match (labels.find? fun p => p.1 = tok) with
  | none => .error "unknown label"
  | some p => .ok ((p.2 : Int) - (pc_index : Int))

/-! ## Claim C4: comment handling in the lexer -/

theorem tokenizeAux_hash (junk : List Char) :
    ∀ (cs buf : List Char) (paren : Nat) (out : List (List Char)),
      tokenizeAux (cs ++ '#' :: junk) buf paren out = tokenizeAux cs buf paren out := by
  intro cs
  induction cs with
  | nil =>
    intro buf paren out
    simp [tokenizeAux]
  | cons c rest ih =>
    intro buf paren out
    rw [List.cons_append]
    simp only [tokenizeAux]
    repeat' split
    all_goals first | rfl | exact ih _ _ _

theorem tokenizeAux_semicolon (cs buf : List Char) (paren : Nat)
    (out : List (List Char)) :
    tokenizeAux (';' :: cs) buf paren out = tokenizeAux cs (buf ++ [';']) paren out := by
  simp [tokenizeAux]

theorem stripHashComment_append {cs : List Char} (junk : List Char)
    (h : '#' ∉ cs) : stripHashComment (cs ++ '#' :: junk) = cs := by
  induction cs with
  | nil => simp [stripHashComment, List.takeWhile]
  | cons c rest ih =>
    have hc : c ≠ '#' := by
      intro hcc
      exact h (hcc ▸ List.mem_cons_self c rest)
    have hrest : '#' ∉ rest := fun hm => h (List.mem_cons_of_mem c hm)
    simp only [stripHashComment, List.cons_append, List.takeWhile_cons]
    simp only [stripHashComment, ne_eq, decide_not] at ih
    simp [hc, ih hrest]

/-- Claim C4, counterexample: the claim says a `;` outside parentheses
starts a comment and a `#` inside parentheses is preserved as token
content.  On the source's `tokenize`, `;` is an ordinary character (the
tokens of `"cadd ; x"` include `";"` and `"x"`) and a `#` inside a
parenthesized immediate still starts the comment (`"c(1#2)"` tokenizes
to the truncated token `"c(1"`). -/
theorem claim_C4_counterexample :
    tokenize ("cadd ; x".data) = ["cadd".data, ";".data, "x".data]
    ∧ tokenize ("cadd ; x".data) ≠ ["cadd".data]
    ∧ tokenize ("c(1#2)".data) = ["c(1".data]
    ∧ tokenize ("c(1#2)".data) ≠ ["c(1#2)".data] := by decide

/-- Claim C4, amended: for every source line, a comment begins at the
first `#` — whatever the parenthesis depth — both in the tokenizer and
in the label-pass comment strip (`raw.split('#', 1)[0]`); `;` never
starts a comment and is accumulated as ordinary token content; and
commas/whitespace inside parentheses still do not split tokens. -/
theorem claim_C4_amended :
    (∀ cs junk : List Char, tokenize (cs ++ '#' :: junk) = tokenize cs)
    ∧ (∀ (cs buf : List Char) (paren : Nat) (out : List (List Char)),
        tokenizeAux (';' :: cs) buf paren out = tokenizeAux cs (buf ++ [';']) paren out)
    ∧ (∀ (cs : List Char) (junk : List Char), '#' ∉ cs →
        stripHashComment (cs ++ '#' :: junk) = cs)
    ∧ tokenize ("cloadi s2, c(1.5,-2.25)".data)
        = ["cloadi".data, "s2".data, "c(1.5,-2.25)".data] := by
  refine ⟨?_, ?_, ?_, by decide⟩
  · intro cs junk
    exact tokenizeAux_hash junk cs [] 0 []
  · exact tokenizeAux_semicolon
  · intro cs junk h
    exact stripHashComment_append junk h

/-- Witness for `claim_C4_amended` at concrete inputs. -/
theorem claim_C4_witness :
    tokenize ("ab".data ++ '#' :: "cd".data) = tokenize ("ab".data)
    ∧ ('#' ∉ "ab".data)
    ∧ stripHashComment ("ab".data ++ '#' :: "cd".data) = "ab".data := by
  refine ⟨claim_C4_amended.1 ("ab".data) ("cd".data), by decide, ?_⟩
  exact claim_C4_amended.2.2.1 ("ab".data) ("cd".data) (by decide)

/-! ## Claims C8, C9: `c_div` vs `c_conj`, `recip` vs `div` -/

/-- Claim C8, counterexample: at `a = (-2^32, 2^62)`,
`b = (2^32, -2^63)` the computed denominator is non-zero (it is
`RAW_MAX`, so the claim's hypothesis holds), yet `c_div a b` differs
from `c_mul(a, c_conj(b))` componentwise-divided by the denominator:
the source negates `bi` exactly (`-(-2^63) = 2^63`) where `c_conj`
saturates to `2^63 - 1`, and the imaginary quotients differ
(`-2^31` vs `-(2^31 - 1)`). -/
theorem claim_C8_counterexample :
    (add_q (mul_q ((2 : Int) ^ 32) (2 ^ 32)) (mul_q (-(2 ^ 63)) (-(2 ^ 63))) ≠ 0)
    ∧ c_div ((-(2 ^ 32) : Int), 2 ^ 62) ((2 : Int) ^ 32, -(2 ^ 63))
      ≠ (div_q (c_mul ((-(2 ^ 32) : Int), 2 ^ 62) (c_conj ((2 : Int) ^ 32, -(2 ^ 63)))).1
           (add_q (mul_q ((2 : Int) ^ 32) (2 ^ 32)) (mul_q (-(2 ^ 63)) (-(2 ^ 63)))),
         div_q (c_mul ((-(2 ^ 32) : Int), 2 ^ 62) (c_conj ((2 : Int) ^ 32, -(2 ^ 63)))).2
           (add_q (mul_q ((2 : Int) ^ 32) (2 ^ 32)) (mul_q (-(2 ^ 63)) (-(2 ^ 63))))) := by
  decide

/-- Claim C8, amended: for Q32.32 pairs `a, b` whose imaginary part
`b.2` is not the endpoint `-2^63`, and whenever the computed
denominator is non-zero, `c_div a b` equals `c_mul(a, c_conj(b))`
componentwise-divided by the denominator (truncating toward zero and
saturating); at `b.2 = -2^63` the source instead uses the exact,
unsaturated negation `(b.1, -b.2)`. -/
theorem claim_C8_amended (a b : Cx) (hmin : RAW_MIN < b.2) (hmax : b.2 ≤ RAW_MAX)
    (hden : add_q (mul_q b.1 b.1) (mul_q b.2 b.2) ≠ 0) :
    c_div a b
      = (div_q (c_mul a (c_conj b)).1 (add_q (mul_q b.1 b.1) (mul_q b.2 b.2)),
         div_q (c_mul a (c_conj b)).2 (add_q (mul_q b.1 b.1) (mul_q b.2 b.2))) := by
  have hconj : c_conj b = (b.1, -b.2) := by
    simp only [RAW_MIN, RAW_MAX] at hmin hmax
    simp only [c_conj, sat64, RAW_MIN, RAW_MAX]
    rw [if_neg (by omega), if_neg (by omega)]
  rw [hconj]
  simp only [c_div]
  rw [if_neg hden]

/-- Witness for `claim_C8_amended` at `a = (1, 1)`, `b = (0, -2^32)`. -/
theorem claim_C8_witness :
    RAW_MIN < (-(2 ^ 32) : Int) ∧ (-(2 ^ 32) : Int) ≤ RAW_MAX
    ∧ (add_q (mul_q (0 : Int) 0) (mul_q (-(2 ^ 32) : Int) (-(2 ^ 32))) ≠ 0)
    ∧ c_div ((1, 1) : Cx) ((0 : Int), -(2 ^ 32))
      = (div_q (c_mul ((1, 1) : Cx) (c_conj ((0 : Int), -(2 ^ 32)))).1
           (add_q (mul_q (0 : Int) 0) (mul_q (-(2 ^ 32) : Int) (-(2 ^ 32)))),
         div_q (c_mul ((1, 1) : Cx) (c_conj ((0 : Int), -(2 ^ 32)))).2
           (add_q (mul_q (0 : Int) 0) (mul_q (-(2 ^ 32) : Int) (-(2 ^ 32))))) :=
  ⟨by decide, by decide, by decide,
    claim_C8_amended ((1, 1) : Cx) ((0 : Int), -(2 ^ 32))
      (by decide) (by decide) (by decide)⟩

/-- Claim C9: the claim (and the source's own inline comment, which
promises "trunc toward zero") is right but the code is wrong:
`recip_q` divides with Python's floor division `//`, which rounds
toward negative infinity for negative operands, so at the raw value
`a = -3` it returns `-6148914691236517206` whereas
`div(1 << 32, -3)` truncates toward zero and returns
`-6148914691236517205`. -/
theorem claim_C9_recip_floor_bug :
    recip_q (-3) = -6148914691236517206
    ∧ div_q ((2 : Int) ^ 32) (-3) = -6148914691236517205
    ∧ recip_q (-3) ≠ div_q ((2 : Int) ^ 32) (-3) := by
  decide

/-! ## Claim C7: division by a zero divisor is never an error -/

theorem c_div_zero_divisor (a : Cx) : c_div a (0, 0) = (0, 0) := by
  have h : add_q (mul_q ((0, 0) : Cx).1 ((0, 0) : Cx).1)
      (mul_q ((0, 0) : Cx).2 ((0, 0) : Cx).2) = 0 := by decide
  simp only [c_div]
  rw [if_pos h]

theorem zipWith_replicate_right {α β γ : Type} (f : α → β → γ) :
    ∀ (A : List α) (n : Nat) (b : β), A.length = n →
      List.zipWith f A (List.replicate n b) = A.map fun a => f a b := by
  intro A
  induction A with
  | nil =>
    intro n b _
    simp
  | cons x xs ih =>
    intro n b h
    cases n with
    | zero => simp at h
    | succ k =>
      simp only [List.replicate_succ, List.zipWith_cons_cons, List.map_cons]
      rw [ih k b (by simpa using h)]

theorem map_c_div_zero (A : List Cx) :
    (A.map fun a => c_div a (0, 0)) = List.replicate A.length (0, 0) := by
  induction A with
  | nil => simp
  | cons x xs ih =>
    rw [List.map_cons, c_div_zero_divisor, ih, List.length_cons, List.replicate_succ]

theorem exec_r_cdiv_zero (f : Cx → Cx) (m : Machine) (w : Nat) (rd rs1 rs2 : Nat)
    (hmap : get_bits w 97 96 = MAP_SS_to_S) (hsub : get_bits w 119 112 = 0x0B)
    (hrd : get_bits w 95 93 = rd) (hrs1 : get_bits w 92 90 = rs1)
    (hrs2 : get_bits w 89 87 = rs2) (hrd0 : rd ≠ 0)
    (hb : m.s.getD rs2 (0, 0) = (0, 0)) :
    exec_r f m w = .ok { m with s := m.s.set rd ((0 : Int), (0 : Int)) } := by
  simp only [exec_r]
  rw [hmap, hsub, hrd, hrs1, hrs2]
  rw [if_pos rfl, if_neg (by decide), if_neg (by decide), if_neg (by decide),
    if_neg (by decide), if_pos rfl]
  rw [hb, c_div_zero_divisor]
  simp only [Machine.write_s]
  rw [if_neg hrd0]
  rw [show (sat64 (((0 : Int), (0 : Int)) : Cx).1, sat64 (((0 : Int), (0 : Int)) : Cx).2)
    = (((0 : Int), (0 : Int)) : Cx) from by decide]

theorem exec_r_crecip_zero (f : Cx → Cx) (m : Machine) (w : Nat) (rd rs1 : Nat)
    (hmap : get_bits w 97 96 = MAP_SS_to_S) (hsub : get_bits w 119 112 = 0x07)
    (hrd : get_bits w 95 93 = rd) (hrs1 : get_bits w 92 90 = rs1) (hrd0 : rd ≠ 0)
    (ha : m.s.getD rs1 (0, 0) = (0, 0)) :
    exec_r f m w = .ok { m with s := m.s.set rd ((0 : Int), (0 : Int)) } := by
  simp only [exec_r]
  rw [hmap, hsub, hrd, hrs1]
  rw [if_pos rfl, if_pos (by decide), if_neg (by decide), if_neg (by decide),
    if_neg (by decide), if_neg (by decide), if_neg (by decide), if_neg (by decide),
    if_neg (by decide), if_pos rfl]
  rw [ha, c_div_zero_divisor]
  simp only [Machine.write_s]
  rw [if_neg hrd0]
  rw [show (sat64 (((0 : Int), (0 : Int)) : Cx).1, sat64 (((0 : Int), (0 : Int)) : Cx).2)
    = (((0 : Int), (0 : Int)) : Cx) from by decide]

theorem exec_r_vdiv_zero (f : Cx → Cx) (m : Machine) (w : Nat) (rd rs1 rs2 : Nat)
    (hmap : get_bits w 97 96 = MAP_VV_to_V) (hsub : get_bits w 119 112 = 0x04)
    (hrd : get_bits w 95 93 = rd) (hrs1 : get_bits w 92 90 = rs1)
    (hrs2 : get_bits w 89 87 = rs2) (hrd0 : rd ≠ 0)
    (hA : (m.v.getD rs1 []).length = m.cfg.vlen)
    (hB : m.v.getD rs2 [] = List.replicate m.cfg.vlen (0, 0)) :
    exec_r f m w
      = .ok { m with v := m.v.set rd (List.replicate m.cfg.vlen ((0 : Int), (0 : Int))) } := by
  simp only [exec_r]
  rw [hmap, hsub, hrd, hrs1, hrs2]
  rw [if_neg (by decide), if_pos rfl, if_neg (by decide), if_neg (by decide),
    if_neg (by decide), if_neg (by decide), if_neg (by decide), if_pos rfl]
  rw [hB, zipWith_replicate_right c_div _ _ _ hA, map_c_div_zero, hA]
  simp only [Machine.write_v]
  rw [if_neg hrd0, if_neg (by simp)]
  rw [List.map_replicate]
  rw [show (sat64 (((0 : Int), (0 : Int)) : Cx).1, sat64 (((0 : Int), (0 : Int)) : Cx).2)
    = (((0 : Int), (0 : Int)) : Cx) from by decide]

theorem exec_r_vsdiv_zero (f : Cx → Cx) (m : Machine) (w : Nat) (rd rs1 rs2 : Nat)
    (hmap : get_bits w 97 96 = MAP_VS_to_V) (hsub : get_bits w 119 112 = 0x1B)
    (hrd : get_bits w 95 93 = rd) (hrs1 : get_bits w 92 90 = rs1)
    (hrs2 : get_bits w 89 87 = rs2) (hrd0 : rd ≠ 0)
    (hA : (m.v.getD rs1 []).length = m.cfg.vlen)
    (hsB : m.s.getD rs2 (0, 0) = (0, 0)) :
    exec_r f m w
      = .ok { m with v := m.v.set rd (List.replicate m.cfg.vlen ((0 : Int), (0 : Int))) } := by
  simp only [exec_r]
  rw [hmap, hsub, hrd, hrs1, hrs2]
  rw [if_neg (by decide), if_neg (by decide), if_neg (by decide), if_pos rfl,
    if_neg (by decide), if_neg (by decide), if_neg (by decide), if_pos rfl]
  rw [hsB, map_c_div_zero, hA]
  simp only [Machine.write_v]
  rw [if_neg hrd0, if_neg (by simp)]
  rw [List.map_replicate]
  rw [show (sat64 (((0 : Int), (0 : Int)) : Cx).1, sat64 (((0 : Int), (0 : Int)) : Cx).2)
    = (((0 : Int), (0 : Int)) : Cx) from by decide]

theorem exec_i_cdivi_zero (m : Machine) (w : Nat) (rd rs1 : Nat)
    (hsub : get_bits w 119 112 = 0x04) (hrd : get_bits w 95 93 = rd)
    (hrs1 : get_bits w 92 90 = rs1) (himm : get_bits w 89 0 = 0) (hrd0 : rd ≠ 0) :
    exec_i m w = .ok { m with s := m.s.set rd ((0 : Int), (0 : Int)) } := by
  simp only [exec_i]
  rw [hsub, hrd, hrs1, himm]
  rw [if_neg (by decide), if_pos (by decide), if_neg (by decide), if_neg (by decide),
    if_neg (by decide), if_pos rfl]
  rw [show q22_23_to_q32_32_pair 0 = (((0 : Int), (0 : Int)) : Cx) from by decide]
  rw [c_div_zero_divisor]
  simp only [Machine.write_s]
  rw [if_neg hrd0]
  rw [show (sat64 (((0 : Int), (0 : Int)) : Cx).1, sat64 (((0 : Int), (0 : Int)) : Cx).2)
    = (((0 : Int), (0 : Int)) : Cx) from by decide]

/-- Claim C7: a zero divisor is never an error.  `div_q` returns `0` on
a zero denominator; `c_div` returns `(0,0)` when the computed
denominator is zero; and executing `cdiv`, `crecip`, `vdiv`, `vsdiv`
(R-type) or `cdiv_i` (I-type) with a zero divisor completes the step
normally, writing the zero result, rather than raising a runtime error
(the destination must be a writable register, `rd ≠ 0`). -/
theorem claim_C7_div_by_zero_not_error :
    (∀ n : Int, div_q n 0 = 0)
    ∧ (∀ a b : Cx, add_q (mul_q b.1 b.1) (mul_q b.2 b.2) = 0 → c_div a b = (0, 0))
    ∧ (∀ (f : Cx → Cx) (m : Machine) (w : Nat) (rd rs1 rs2 : Nat),
        get_bits w 97 96 = MAP_SS_to_S → get_bits w 119 112 = 0x0B →
        get_bits w 95 93 = rd → get_bits w 92 90 = rs1 → get_bits w 89 87 = rs2 →
        rd ≠ 0 → m.s.getD rs2 (0, 0) = (0, 0) →
        exec_r f m w = .ok { m with s := m.s.set rd ((0 : Int), (0 : Int)) })
    ∧ (∀ (f : Cx → Cx) (m : Machine) (w : Nat) (rd rs1 : Nat),
        get_bits w 97 96 = MAP_SS_to_S → get_bits w 119 112 = 0x07 →
        get_bits w 95 93 = rd → get_bits w 92 90 = rs1 →
        rd ≠ 0 → m.s.getD rs1 (0, 0) = (0, 0) →
        exec_r f m w = .ok { m with s := m.s.set rd ((0 : Int), (0 : Int)) })
    ∧ (∀ (f : Cx → Cx) (m : Machine) (w : Nat) (rd rs1 rs2 : Nat),
        get_bits w 97 96 = MAP_VV_to_V → get_bits w 119 112 = 0x04 →
        get_bits w 95 93 = rd → get_bits w 92 90 = rs1 → get_bits w 89 87 = rs2 →
        rd ≠ 0 → (m.v.getD rs1 []).length = m.cfg.vlen →
        m.v.getD rs2 [] = List.replicate m.cfg.vlen (0, 0) →
        exec_r f m w
          = .ok { m with v := m.v.set rd (List.replicate m.cfg.vlen ((0 : Int), (0 : Int))) })
    ∧ (∀ (f : Cx → Cx) (m : Machine) (w : Nat) (rd rs1 rs2 : Nat),
        get_bits w 97 96 = MAP_VS_to_V → get_bits w 119 112 = 0x1B →
        get_bits w 95 93 = rd → get_bits w 92 90 = rs1 → get_bits w 89 87 = rs2 →
        rd ≠ 0 → (m.v.getD rs1 []).length = m.cfg.vlen →
        m.s.getD rs2 (0, 0) = (0, 0) →
        exec_r f m w
          = .ok { m with v := m.v.set rd (List.replicate m.cfg.vlen ((0 : Int), (0 : Int))) })
    ∧ (∀ (m : Machine) (w : Nat) (rd rs1 : Nat),
        get_bits w 119 112 = 0x04 → get_bits w 95 93 = rd → get_bits w 92 90 = rs1 →
        get_bits w 89 0 = 0 → rd ≠ 0 →
        exec_i m w = .ok { m with s := m.s.set rd ((0 : Int), (0 : Int)) }) := by
  refine ⟨?_, ?_, ?_, ?_, ?_, ?_, ?_⟩
  · intro n
    simp [div_q]
  · intro a b h
    simp only [c_div]
    rw [if_pos h]
  · intro f m w rd rs1 rs2 h1 h2 h3 h4 h5 h6 h7
    exact exec_r_cdiv_zero f m w rd rs1 rs2 h1 h2 h3 h4 h5 h6 h7
  · intro f m w rd rs1 h1 h2 h3 h4 h5 h6
    exact exec_r_crecip_zero f m w rd rs1 h1 h2 h3 h4 h5 h6
  · intro f m w rd rs1 rs2 h1 h2 h3 h4 h5 h6 h7 h8
    exact exec_r_vdiv_zero f m w rd rs1 rs2 h1 h2 h3 h4 h5 h6 h7 h8
  · intro f m w rd rs1 rs2 h1 h2 h3 h4 h5 h6 h7 h8
    exact exec_r_vsdiv_zero f m w rd rs1 rs2 h1 h2 h3 h4 h5 h6 h7 h8
  · intro m w rd rs1 h1 h2 h3 h4 h5
    exact exec_i_cdivi_zero m w rd rs1 h1 h2 h3 h4 h5

/-- Witness for `claim_C7_div_by_zero_not_error`: a concrete `cdiv`
with a zero divisor register on the freshly initialised machine, and a
concrete `c_div` with zero denominator. -/
theorem claim_C7_witness :
    (add_q (mul_q (0 : Int) 0) (mul_q (0 : Int) 0) = 0)
    ∧ c_div ((5, 7) : Cx) ((0 : Int), 0) = (0, 0)
    ∧ exec_r (fun _ => (0, 0)) (Machine.init {})
        (11 * 2 ^ 112 + 2 * 2 ^ 93 + 3 * 2 ^ 90 + 4 * 2 ^ 87)
      = .ok { Machine.init {} with
          s := (Machine.init {}).s.set 2 ((0 : Int), (0 : Int)) } :=
  ⟨by decide,
    claim_C7_div_by_zero_not_error.2.1 ((5, 7) : Cx) ((0 : Int), 0) (by decide),
    claim_C7_div_by_zero_not_error.2.2.1 (fun _ => (0, 0)) (Machine.init {})
      (11 * 2 ^ 112 + 2 * 2 ^ 93 + 3 * 2 ^ 90 + 4 * 2 ^ 87) 2 3 4
      (by decide) (by decide) (by decide) (by decide) (by decide) (by decide)
      (by decide)⟩

/-! ## Claim C3: `jrel` semantics and label resolution -/

theorem exec_j_spec (m : Machine) (w : Nat) (plen : Nat) (offs : Int)
    (hsub : get_bits w 119 112 = 0) (hoffs : get_bits_signed w 92 60 = offs) :
    exec_j m w plen
      = .ok { m with pc := if m.pred_true then m.pc + offs else m.pc + 1 } := by
  simp only [exec_j]
  rw [hsub, hoffs, if_neg (by decide)]
  cases hp : m.pred_true <;> simp [hp]

/-- Claim C3: an executed `jrel` (J-type subop 0) moves `pc` to
`pc + offs33` when the predicate holds and to `pc + 1` otherwise, with
the offset measured from the `jrel`'s own `pc`; under the default
real-only configuration the predicate is "real part of `s1` non-zero";
the assembler resolves a label to `target_pc - current_pc`, so a label
immediately after the jump gives offset 1 (pc advances by 1) and a label
at the jump itself gives offset 0 (pc unchanged). -/
theorem claim_C3_jrel :
    (∀ (m : Machine) (w : Nat) (plen : Nat) (offs : Int),
        get_bits w 119 112 = 0 → get_bits_signed w 92 60 = offs →
        exec_j m w plen
          = .ok { m with pc := if m.pred_true then m.pc + offs else m.pc + 1 })
    ∧ (∀ m : Machine, m.cfg.pred_uses_real_only = true →
        (m.pred_true = true ↔ (m.s.getD 1 (0, 0)).1 ≠ 0))
    ∧ (∀ (labels : List (String × Nat)) (tok : String) (pc_index target : Nat),
        (labels.find? fun p => p.1 = tok) = some (tok, target) →
        resolve_label labels tok pc_index = .ok ((target : Int) - (pc_index : Int)))
    ∧ (∀ (m : Machine) (plen : Nat) (offs : Int) (w : Nat),
        -((2 : Int) ^ 32) ≤ offs → offs ≤ (2 : Int) ^ 32 - 1 →
        encJ offs = .ok w → m.pred_true = true →
        exec_j m w plen = .ok { m with pc := m.pc + offs })
    ∧ (∀ (labels : List (String × Nat)) (tok : String) (pc_index : Nat),
        (labels.find? fun p => p.1 = tok) = some (tok, pc_index + 1) →
        resolve_label labels tok pc_index = .ok 1)
    ∧ (∀ (labels : List (String × Nat)) (tok : String) (pc_index : Nat),
        (labels.find? fun p => p.1 = tok) = some (tok, pc_index) →
        resolve_label labels tok pc_index = .ok 0) := by
  refine ⟨exec_j_spec, ?_, ?_, ?_, ?_, ?_⟩
  · intro m h
    simp [Machine.pred_true, h, bne_iff_ne]
  · intro labels tok pc_index target hfind
    simp [resolve_label, hfind]
  · intro m plen offs w h1 h2 henc hpred
    have hw := encJ_ok h1 h2 rfl
    rw [henc] at hw
    have hweq : w = 3 * 2 ^ 120 + 2 ^ 93
        + (if offs < 0 then (2 : Int) ^ 33 + offs else offs).toNat * 2 ^ 60 := by
      exact Except.ok.inj hw
    have hdec := decode_J_offs h1 h2
      (rfl : ((if offs < 0 then (2 : Int) ^ 33 + offs else offs).toNat)
        = (if offs < 0 then (2 : Int) ^ 33 + offs else offs).toNat)
    have hu : (if offs < 0 then (2 : Int) ^ 33 + offs else offs).toNat < 2 ^ 33 := by
      rcases lt_or_ge offs 0 with hneg | hpos
      · rw [if_pos hneg]
        omega
      · rw [if_neg (not_lt.mpr hpos)]
        omega
    have hsub := (decode_J hu).2.1
    rw [hweq]
    rw [exec_j_spec _ _ _ offs hsub hdec, hpred]
    simp only [if_true]
  · intro labels tok pc_index hfind
    simp [resolve_label, hfind]
  · intro labels tok pc_index hfind
    simp [resolve_label, hfind]

/-- Witness for `claim_C3_jrel`: a jump by 1 from the initial machine
with the predicate forced true. -/
theorem claim_C3_witness :
    (get_bits (3 * 2 ^ 120 + 2 ^ 93 + 1 * 2 ^ 60) 119 112 = 0)
    ∧ (get_bits_signed (3 * 2 ^ 120 + 2 ^ 93 + 1 * 2 ^ 60) 92 60 = 1)
    ∧ exec_j { Machine.init {} with s := (Machine.init {}).s.set 1 ((1, 0) : Cx) }
        (3 * 2 ^ 120 + 2 ^ 93 + 1 * 2 ^ 60) 5
      = .ok { { Machine.init {} with s := (Machine.init {}).s.set 1 ((1, 0) : Cx) } with
          pc := if ({ Machine.init {} with
            s := (Machine.init {}).s.set 1 ((1, 0) : Cx) } : Machine).pred_true
            then ({ Machine.init {} with
              s := (Machine.init {}).s.set 1 ((1, 0) : Cx) } : Machine).pc + 1
            else ({ Machine.init {} with
              s := (Machine.init {}).s.set 1 ((1, 0) : Cx) } : Machine).pc + 1 } :=
  ⟨by decide, by decide,
    claim_C3_jrel.1 { Machine.init {} with s := (Machine.init {}).s.set 1 ((1, 0) : Cx) }
      (3 * 2 ^ 120 + 2 ^ 93 + 1 * 2 ^ 60) 5 1 (by decide) (by decide)⟩

/-! ## Claims C5 and C6: `vld`/`vst` semantics and encoding -/

theorem getD_set_self {α : Type} (l : List α) (i : Nat) (x d : α) (h : i < l.length) :
    (l.set i x).getD i d = x := by
  rw [List.getD_eq_getElem?_getD, List.getElem?_set_self h]
  rfl

theorem getD_set_ne {α : Type} (l : List α) {i j : Nat} (h : i ≠ j) (x d : α) :
    (l.set i x).getD j d = l.getD j d := by
  rw [List.getD_eq_getElem?_getD, List.getElem?_set_ne h, ← List.getD_eq_getElem?_getD]

theorem range_map_getD (f : Nat → Cx) {L k : Nat} (hk : k < L) :
    ((List.range L).map f).getD k (0, 0) = f k := by
  rw [List.getD_eq_getElem?_getD, List.getElem?_map, List.getElem?_range hk]
  rfl

/-- Characterisation of a `vld` with orientation 0 (row-major): lane `k`
of the destination receives the element of the fixed row `i16` at
**column `k`**, i.e. the run starts at column 0 — the `j16` field of the
word plays no part. -/
theorem exec_s_vld_row (m : Machine) (w : Nat) (reg3 mbid i16 len16 L : Nat)
    (hsub : get_bits w 119 112 = 0x00) (hrc : get_bits w 111 111 = 0)
    (hreg : get_bits w 95 93 = reg3) (hmb : get_bits w 92 89 = mbid)
    (hi : get_bits w 88 73 = i16) (hlen : get_bits w 56 41 = len16)
    (hL : L = (if len16 ≠ 0 then len16 else m.cfg.vlen))
    (hmbR : mbid < m.bank.length) (hrow : i16 < m.rows) (hcols : L ≤ m.cols)
    (hreg0 : reg3 ≠ 0) :
    exec_s m w = .ok { m with
      v := m.v.set reg3 (((List.range m.cfg.vlen).map fun k =>
        if k < min L m.cfg.vlen then bank_get m.bank mbid i16 k else (0, 0)).map
          fun p => (sat64 p.1, sat64 p.2))
      pc := m.pc + 1 } := by
  simp only [exec_s]
  rw [hsub, hrc, hreg, hmb, hi, hlen]
  rw [if_neg (by omega), if_pos rfl, if_pos rfl, ← hL, if_neg (by push_neg; omega)]
  rw [pure_bind]
  simp only [Machine.write_v]
  rw [if_neg hreg0, if_neg (by simp)]
  rw [except_bind_ok]
  refine congrArg Except.ok ?_
  have hv : ((List.range m.cfg.vlen).map fun k =>
        if k < min L m.cfg.vlen then
          ((List.range L).map fun c => bank_get m.bank mbid i16 c).getD k (0, 0)
        else (0, 0))
      = (List.range m.cfg.vlen).map fun k =>
        if k < min L m.cfg.vlen then bank_get m.bank mbid i16 k else (0, 0) := by
    refine List.map_congr_left ?_
    intro k _
    by_cases hk : k < min L m.cfg.vlen
    · rw [if_pos hk, if_pos hk, range_map_getD _ (by omega)]
    · rw [if_neg hk, if_neg hk]
  rw [hv]

/-- Characterisation of a `vld` with orientation 1 (column-major): lane
`k` receives the element of the fixed **column `i16`** at row `k`, so
the run starts at row 0; again `j16` plays no part. -/
theorem exec_s_vld_col (m : Machine) (w : Nat) (reg3 mbid i16 len16 L : Nat)
    (hsub : get_bits w 119 112 = 0x00) (hrc : get_bits w 111 111 = 1)
    (hreg : get_bits w 95 93 = reg3) (hmb : get_bits w 92 89 = mbid)
    (hi : get_bits w 88 73 = i16) (hlen : get_bits w 56 41 = len16)
    (hL : L = (if len16 ≠ 0 then len16 else m.cfg.vlen))
    (hmbR : mbid < m.bank.length) (hcol : i16 < m.cols) (hrows : L ≤ m.rows)
    (hreg0 : reg3 ≠ 0) :
    exec_s m w = .ok { m with
      v := m.v.set reg3 (((List.range m.cfg.vlen).map fun k =>
        if k < min L m.cfg.vlen then bank_get m.bank mbid k i16 else (0, 0)).map
          fun p => (sat64 p.1, sat64 p.2))
      pc := m.pc + 1 } := by
  simp only [exec_s]
  rw [hsub, hrc, hreg, hmb, hi, hlen]
  rw [if_neg (by omega), if_pos rfl, if_neg (by decide), ← hL,
    if_neg (by push_neg; omega)]
  rw [pure_bind]
  simp only [Machine.write_v]
  rw [if_neg hreg0, if_neg (by simp)]
  rw [except_bind_ok]
  refine congrArg Except.ok ?_
  have hv : ((List.range m.cfg.vlen).map fun k =>
        if k < min L m.cfg.vlen then
          ((List.range L).map fun r => bank_get m.bank mbid r i16).getD k (0, 0)
        else (0, 0))
      = (List.range m.cfg.vlen).map fun k =>
        if k < min L m.cfg.vlen then bank_get m.bank mbid k i16 else (0, 0) := by
    refine List.map_congr_left ?_
    intro k _
    by_cases hk : k < min L m.cfg.vlen
    · rw [if_pos hk, if_pos hk, range_map_getD _ (by omega)]
    · rw [if_neg hk, if_neg hk]
  rw [hv]

/-- Lengths of the bank structure are unchanged by the `vst` row store. -/
theorem vst_fold_row_lens (mbid r vl : Nat) (src : List Cx) :
    ∀ (L : Nat) (bk : List (List (List Cx))), mbid < bk.length →
      r < (bk.getD mbid []).length →
      (((List.range L).foldl (fun b c => b.set mbid (set2 (b.getD mbid []) r c
          (if c < vl then src.getD c (0, 0) else (0, 0)))) bk).length = bk.length
      ∧ (((List.range L).foldl (fun b c => b.set mbid (set2 (b.getD mbid []) r c
          (if c < vl then src.getD c (0, 0) else (0, 0)))) bk).getD mbid []).length
          = (bk.getD mbid []).length
      ∧ ((((List.range L).foldl (fun b c => b.set mbid (set2 (b.getD mbid []) r c
          (if c < vl then src.getD c (0, 0) else (0, 0)))) bk).getD mbid []).getD r
          []).length = ((bk.getD mbid []).getD r []).length) := by
  intro L
  induction L with
  | zero =>
    intro bk _ _
    simp [List.range_zero]
  | succ n ih =>
    intro bk hmb hr
    rw [List.range_succ, List.foldl_append, List.foldl_cons, List.foldl_nil]
    obtain ⟨l1, l2, l3⟩ := ih bk hmb hr
    have hmb2 : mbid < ((List.range n).foldl (fun b c => b.set mbid
        (set2 (b.getD mbid []) r c (if c < vl then src.getD c (0, 0) else (0, 0))))
        bk).length := by rw [l1]; exact hmb
    refine ⟨by rw [List.length_set, l1], ?_, ?_⟩
    · rw [getD_set_self _ _ _ _ hmb2, set2, List.length_set, l2]
    · rw [getD_set_self _ _ _ _ hmb2, set2]
      rw [getD_set_self _ _ _ _ (by rw [l2]; exact hr), List.length_set, l3]

/-- Element contents after the `vst` row store: column `c0 < L` of the
fixed row `r` of bank `mbid` holds `src[c0]` (zero-padded past `vl`). -/
theorem vst_fold_row_elem (mbid r vl : Nat) (src : List Cx) :
    ∀ (L : Nat) (bk : List (List (List Cx))), mbid < bk.length →
      r < (bk.getD mbid []).length →
      ∀ c0, c0 < L → c0 < ((bk.getD mbid []).getD r []).length →
      bank_get ((List.range L).foldl (fun b c => b.set mbid (set2 (b.getD mbid []) r c
          (if c < vl then src.getD c (0, 0) else (0, 0)))) bk) mbid r c0
        = (if c0 < vl then src.getD c0 (0, 0) else (0, 0)) := by
  intro L
  induction L with
  | zero =>
    intro bk _ _ c0 hc0 _
    omega
  | succ n ih =>
    intro bk hmb hr c0 hc0 hcl
    rw [List.range_succ, List.foldl_append, List.foldl_cons, List.foldl_nil]
    obtain ⟨l1, l2, l3⟩ := vst_fold_row_lens mbid r vl src n bk hmb hr
    have hmb2 : mbid < ((List.range n).foldl (fun b c => b.set mbid
        (set2 (b.getD mbid []) r c (if c < vl then src.getD c (0, 0) else (0, 0))))
        bk).length := by rw [l1]; exact hmb
    have hr2 : r < (((List.range n).foldl (fun b c => b.set mbid
        (set2 (b.getD mbid []) r c (if c < vl then src.getD c (0, 0) else (0, 0))))
        bk).getD mbid []).length := by rw [l2]; exact hr
    rcases Nat.lt_or_ge c0 n with hlt | hge
    · rw [bank_get, getD_set_self _ _ _ _ hmb2, set2, getD_set_self _ _ _ _ hr2,
        getD_set_ne _ (by omega) _ _]
      exact ih bk hmb hr c0 hlt hcl
    · have hc0n : c0 = n := by omega
      subst hc0n
      rw [bank_get, getD_set_self _ _ _ _ hmb2, set2, getD_set_self _ _ _ _ hr2,
        getD_set_self _ _ _ _ (by rw [l3]; exact hcl)]

/-- Lengths of the bank structure are unchanged by the `vst` column
store (every stored row index is below `L ≤` the row count). -/
theorem vst_fold_col_lens (mbid c vl : Nat) (src : List Cx) :
    ∀ (L : Nat) (bk : List (List (List Cx))), mbid < bk.length →
      L ≤ (bk.getD mbid []).length →
      (((List.range L).foldl (fun b r => b.set mbid (set2 (b.getD mbid []) r c
          (if r < vl then src.getD r (0, 0) else (0, 0)))) bk).length = bk.length
      ∧ (((List.range L).foldl (fun b r => b.set mbid (set2 (b.getD mbid []) r c
          (if r < vl then src.getD r (0, 0) else (0, 0)))) bk).getD mbid []).length
          = (bk.getD mbid []).length
      ∧ ∀ r0, ((((List.range L).foldl (fun b r => b.set mbid (set2 (b.getD mbid []) r c
          (if r < vl then src.getD r (0, 0) else (0, 0)))) bk).getD mbid []).getD r0
          []).length = ((bk.getD mbid []).getD r0 []).length) := by
  intro L
  induction L with
  | zero =>
    intro bk _ _
    simp [List.range_zero]
  | succ n ih =>
    intro bk hmb hL
    rw [List.range_succ, List.foldl_append, List.foldl_cons, List.foldl_nil]
    obtain ⟨l1, l2, l3⟩ := ih bk hmb (by omega)
    have hmb2 : mbid < ((List.range n).foldl (fun b r => b.set mbid
        (set2 (b.getD mbid []) r c (if r < vl then src.getD r (0, 0) else (0, 0))))
        bk).length := by rw [l1]; exact hmb
    have hn2 : n < (((List.range n).foldl (fun b r => b.set mbid
        (set2 (b.getD mbid []) r c (if r < vl then src.getD r (0, 0) else (0, 0))))
        bk).getD mbid []).length := by rw [l2]; omega
    refine ⟨by rw [List.length_set, l1], ?_, ?_⟩
    · rw [getD_set_self _ _ _ _ hmb2, set2, List.length_set, l2]
    · intro r0
      rw [getD_set_self _ _ _ _ hmb2, set2]
      rcases eq_or_ne r0 n with rfl | hne
      · rw [getD_set_self _ _ _ _ hn2, List.length_set, l3]
      · rw [getD_set_ne _ hne.symm _ _, l3]

/-- Element contents after the `vst` column store: row `r0 < L` of the
fixed column `c` of bank `mbid` holds `src[r0]` (zero-padded past `vl`). -/
theorem vst_fold_col_elem (mbid c vl : Nat) (src : List Cx) :
    ∀ (L : Nat) (bk : List (List (List Cx))), mbid < bk.length →
      L ≤ (bk.getD mbid []).length →
      ∀ r0, r0 < L → c < ((bk.getD mbid []).getD r0 []).length →
      bank_get ((List.range L).foldl (fun b r => b.set mbid (set2 (b.getD mbid []) r c
          (if r < vl then src.getD r (0, 0) else (0, 0)))) bk) mbid r0 c
        = (if r0 < vl then src.getD r0 (0, 0) else (0, 0)) := by
  intro L
  induction L with
  | zero =>
    intro bk _ _ r0 hr0 _
    omega
  | succ n ih =>
    intro bk hmb hL r0 hr0 hcl
    rw [List.range_succ, List.foldl_append, List.foldl_cons, List.foldl_nil]
    obtain ⟨l1, l2, l3⟩ := vst_fold_col_lens mbid c vl src n bk hmb (by omega)
    have hmb2 : mbid < ((List.range n).foldl (fun b r => b.set mbid
        (set2 (b.getD mbid []) r c (if r < vl then src.getD r (0, 0) else (0, 0))))
        bk).length := by rw [l1]; exact hmb
    have hn2 : n < (((List.range n).foldl (fun b r => b.set mbid
        (set2 (b.getD mbid []) r c (if r < vl then src.getD r (0, 0) else (0, 0))))
        bk).getD mbid []).length := by rw [l2]; omega
    rcases Nat.lt_or_ge r0 n with hlt | hge
    · rw [bank_get, getD_set_self _ _ _ _ hmb2, set2,
        getD_set_ne _ (by omega) _ _]
      exact ih bk hmb (by omega) r0 hlt hcl
    · have hr0n : r0 = n := by omega
      subst hr0n
      rw [bank_get, getD_set_self _ _ _ _ hmb2, set2, getD_set_self _ _ _ _ hn2,
        getD_set_self _ _ _ _ (by rw [l3]; exact hcl)]

/-- Characterisation of `vst` with orientation 0: the store writes the
fixed row `i16` at columns `0..L-1` (so the run starts at `(i16, 0)`,
`j16` being ignored), taking lane `c0` of the source vector. -/
theorem exec_s_vst_row (m : Machine) (w : Nat) (reg3 mbid i16 len16 L : Nat)
    (hsub : get_bits w 119 112 = 0x01) (hrc : get_bits w 111 111 = 0)
    (hreg : get_bits w 95 93 = reg3) (hmb : get_bits w 92 89 = mbid)
    (hi : get_bits w 88 73 = i16) (hlen : get_bits w 56 41 = len16)
    (hL : L = (if len16 ≠ 0 then len16 else m.cfg.vlen))
    (hmbR : mbid < m.bank.length) (hrow : i16 < m.rows) (hcols : L ≤ m.cols) :
    ∃ m2, exec_s m w = .ok m2 ∧ m2.v = m.v ∧ m2.s = m.s ∧ m2.pc = m.pc + 1
      ∧ (i16 < (m.bank.getD mbid []).length →
         ∀ c0, c0 < L → c0 < ((m.bank.getD mbid []).getD i16 []).length →
         bank_get m2.bank mbid i16 c0
           = (if c0 < m.cfg.vlen then (m.v.getD reg3 []).getD c0 (0, 0) else (0, 0))) := by
  simp only [exec_s]
  rw [hsub, hrc, hreg, hmb, hi, hlen]
  rw [if_neg (by omega), if_neg (by decide), if_pos rfl, if_pos rfl, ← hL,
    if_neg (by push_neg; omega)]
  refine ⟨_, rfl, rfl, rfl, rfl, ?_⟩
  intro hrowlen c0 hc0 hclen
  exact vst_fold_row_elem mbid i16 m.cfg.vlen (m.v.getD reg3 []) L m.bank hmbR
    hrowlen c0 hc0 hclen

/-- Characterisation of `vst` with orientation 1: the store writes the
fixed column `i16` at rows `0..L-1` (the run starts at `(0, i16)` in
row/column coordinates), taking lane `r0` of the source vector. -/
theorem exec_s_vst_col (m : Machine) (w : Nat) (reg3 mbid i16 len16 L : Nat)
    (hsub : get_bits w 119 112 = 0x01) (hrc : get_bits w 111 111 = 1)
    (hreg : get_bits w 95 93 = reg3) (hmb : get_bits w 92 89 = mbid)
    (hi : get_bits w 88 73 = i16) (hlen : get_bits w 56 41 = len16)
    (hL : L = (if len16 ≠ 0 then len16 else m.cfg.vlen))
    (hmbR : mbid < m.bank.length) (hcol : i16 < m.cols) (hrows : L ≤ m.rows) :
    ∃ m2, exec_s m w = .ok m2 ∧ m2.v = m.v ∧ m2.s = m.s ∧ m2.pc = m.pc + 1
      ∧ (L ≤ (m.bank.getD mbid []).length →
         ∀ r0, r0 < L → i16 < ((m.bank.getD mbid []).getD r0 []).length →
         bank_get m2.bank mbid r0 i16
           = (if r0 < m.cfg.vlen then (m.v.getD reg3 []).getD r0 (0, 0) else (0, 0))) := by
  simp only [exec_s]
  rw [hsub, hrc, hreg, hmb, hi, hlen]
  rw [if_neg (by omega), if_neg (by decide), if_pos rfl, if_neg (by decide), ← hL,
    if_neg (by push_neg; omega)]
  refine ⟨_, rfl, rfl, rfl, rfl, ?_⟩
  intro hrowlen r0 hr0 hclen
  exact vst_fold_col_elem mbid i16 m.cfg.vlen (m.v.getD reg3 []) L m.bank hmbR
    hrowlen r0 hr0 hclen

instance {ε α : Type} [DecidableEq ε] [DecidableEq α] : DecidableEq (Except ε α) := by
  intro a b
  cases a <;> cases b
  case error.error e f =>
    exact if h : e = f then isTrue (by rw [h]) else isFalse (by
      intro hc
      exact h (Except.error.inj hc))
  case error.ok e x => exact isFalse (by intro hc; exact Except.noConfusion hc)
  case ok.error x e => exact isFalse (by intro hc; exact Except.noConfusion hc)
  case ok.ok x y =>
    exact if h : x = y then isTrue (by rw [h]) else isFalse (by
      intro hc
      exact h (Except.ok.inj hc))

/-- A small machine for the `vld` counterexamples: `VLEN = 2`, one 4x4
bank whose row 0 is `[(10,0),(11,0),(12,0),(13,0)]`. -/
def C5_m : Machine :=
  { cfg := { vlen := 2, banks := 1, rows_mult := 2, cols_mult := 2,
             pred_uses_real_only := true }
    pc := 0
    s := List.replicate 8 ((0, 0) : Cx)
    v := List.replicate 8 (List.replicate 2 ((0, 0) : Cx))
    bank := [[[((10 : Int), (0 : Int)), (11, 0), (12, 0), (13, 0)],
              [(20, 0), (21, 0), (22, 0), (23, 0)],
              [(30, 0), (31, 0), (32, 0), (33, 0)],
              [(40, 0), (41, 0), (42, 0), (43, 0)]]]
    rows := 4
    cols := 4 }

/-- A `vld` word with orientation 0, `vD = v1`, `mbid = 0`, `i16 = 0`,
`j16 = 1` and `len16 = 0`. -/
def C5_w : Nat := 4 * 2 ^ 120 + 2 ^ 93 + 2 ^ 57

/-- Claim C5, counterexample: the word `C5_w` carries `j16 = 1`, so by
the claim the loaded run should start at element `(0, 1)` and read
`[(11,0),(12,0)]`; the emulator instead reads the run starting at
column 0 of row 0, `[(10,0),(11,0)]` — `j16` is ignored entirely. -/
theorem claim_C5_counterexample :
    get_bits C5_w 72 57 = 1
    ∧ exec_s C5_m C5_w
      = .ok { C5_m with
          v := C5_m.v.set 1 [((10 : Int), (0 : Int)), (11, 0)], pc := 1 }
    ∧ ([((10 : Int), (0 : Int)), ((11 : Int), (0 : Int))]
        ≠ [((11 : Int), (0 : Int)), ((12 : Int), (0 : Int))]) := by
  decide

/-- Claim C5, amended: for an executed `vld`, the contiguous `L`-long
run (`L = len16`, or `VLEN` when `len16 = 0`) starts at `(i16, 0)`:
with orientation 0 lane `k` receives the element of fixed row `i16` at
column `k`, with orientation 1 lane `k` receives the element of fixed
column `i16` at row `k`; the `j16` field is ignored (the assembler
always encodes it as 0).  `vst` stores symmetrically, writing columns
(resp. rows) `0..L-1` of the fixed row (resp. column) `i16` from the
source lanes. -/
theorem claim_C5_amended :
    (∀ (m : Machine) (w : Nat) (reg3 mbid i16 len16 L : Nat),
      get_bits w 119 112 = 0x00 → get_bits w 111 111 = 0 →
      get_bits w 95 93 = reg3 → get_bits w 92 89 = mbid →
      get_bits w 88 73 = i16 → get_bits w 56 41 = len16 →
      L = (if len16 ≠ 0 then len16 else m.cfg.vlen) →
      mbid < m.bank.length → i16 < m.rows → L ≤ m.cols → reg3 ≠ 0 →
      exec_s m w = .ok { m with
        v := m.v.set reg3 (((List.range m.cfg.vlen).map fun k =>
          if k < min L m.cfg.vlen then bank_get m.bank mbid i16 k else (0, 0)).map
            fun p => (sat64 p.1, sat64 p.2))
        pc := m.pc + 1 })
    ∧ (∀ (m : Machine) (w : Nat) (reg3 mbid i16 len16 L : Nat),
      get_bits w 119 112 = 0x00 → get_bits w 111 111 = 1 →
      get_bits w 95 93 = reg3 → get_bits w 92 89 = mbid →
      get_bits w 88 73 = i16 → get_bits w 56 41 = len16 →
      L = (if len16 ≠ 0 then len16 else m.cfg.vlen) →
      mbid < m.bank.length → i16 < m.cols → L ≤ m.rows → reg3 ≠ 0 →
      exec_s m w = .ok { m with
        v := m.v.set reg3 (((List.range m.cfg.vlen).map fun k =>
          if k < min L m.cfg.vlen then bank_get m.bank mbid k i16 else (0, 0)).map
            fun p => (sat64 p.1, sat64 p.2))
        pc := m.pc + 1 })
    ∧ (∀ (m : Machine) (w : Nat) (reg3 mbid i16 len16 L : Nat),
      get_bits w 119 112 = 0x01 → get_bits w 111 111 = 0 →
      get_bits w 95 93 = reg3 → get_bits w 92 89 = mbid →
      get_bits w 88 73 = i16 → get_bits w 56 41 = len16 →
      L = (if len16 ≠ 0 then len16 else m.cfg.vlen) →
      mbid < m.bank.length → i16 < m.rows → L ≤ m.cols →
      ∃ m2, exec_s m w = .ok m2 ∧ m2.v = m.v ∧ m2.s = m.s ∧ m2.pc = m.pc + 1
        ∧ (i16 < (m.bank.getD mbid []).length →
          ∀ c0, c0 < L → c0 < ((m.bank.getD mbid []).getD i16 []).length →
          bank_get m2.bank mbid i16 c0
            = (if c0 < m.cfg.vlen then (m.v.getD reg3 []).getD c0 (0, 0) else (0, 0))))
    ∧ (∀ (m : Machine) (w : Nat) (reg3 mbid i16 len16 L : Nat),
      get_bits w 119 112 = 0x01 → get_bits w 111 111 = 1 →
      get_bits w 95 93 = reg3 → get_bits w 92 89 = mbid →
      get_bits w 88 73 = i16 → get_bits w 56 41 = len16 →
      L = (if len16 ≠ 0 then len16 else m.cfg.vlen) →
      mbid < m.bank.length → i16 < m.cols → L ≤ m.rows →
      ∃ m2, exec_s m w = .ok m2 ∧ m2.v = m.v ∧ m2.s = m.s ∧ m2.pc = m.pc + 1
        ∧ (L ≤ (m.bank.getD mbid []).length →
          ∀ r0, r0 < L → i16 < ((m.bank.getD mbid []).getD r0 []).length →
          bank_get m2.bank mbid r0 i16
            = (if r0 < m.cfg.vlen then (m.v.getD reg3 []).getD r0 (0, 0) else (0, 0)))) := by
  refine ⟨?_, ?_, ?_, ?_⟩
  · intro m w reg3 mbid i16 len16 L h1 h2 h3 h4 h5 h6 h7 h8 h9 h10 h11
    exact exec_s_vld_row m w reg3 mbid i16 len16 L h1 h2 h3 h4 h5 h6 h7 h8 h9 h10 h11
  · intro m w reg3 mbid i16 len16 L h1 h2 h3 h4 h5 h6 h7 h8 h9 h10 h11
    exact exec_s_vld_col m w reg3 mbid i16 len16 L h1 h2 h3 h4 h5 h6 h7 h8 h9 h10 h11
  · intro m w reg3 mbid i16 len16 L h1 h2 h3 h4 h5 h6 h7 h8 h9 h10
    exact exec_s_vst_row m w reg3 mbid i16 len16 L h1 h2 h3 h4 h5 h6 h7 h8 h9 h10
  · intro m w reg3 mbid i16 len16 L h1 h2 h3 h4 h5 h6 h7 h8 h9 h10
    exact exec_s_vst_col m w reg3 mbid i16 len16 L h1 h2 h3 h4 h5 h6 h7 h8 h9 h10

/-- Witness for `claim_C5_amended`: a concrete row-major `vld` (word
with `i16 = 0`, `j16 = 0`, `len16 = 0`) on `C5_m`. -/
theorem claim_C5_witness :
    (get_bits (4 * 2 ^ 120 + 2 ^ 93) 119 112 = 0x00)
    ∧ ((2 : Nat) = if (0 : Nat) ≠ 0 then 0 else C5_m.cfg.vlen)
    ∧ exec_s C5_m (4 * 2 ^ 120 + 2 ^ 93)
      = .ok { C5_m with
          v := C5_m.v.set 1 (((List.range C5_m.cfg.vlen).map fun k =>
            if k < min 2 C5_m.cfg.vlen then bank_get C5_m.bank 0 0 k else (0, 0)).map
              fun p => (sat64 p.1, sat64 p.2))
          pc := C5_m.pc + 1 } :=
  ⟨by decide, by decide,
    claim_C5_amended.1 C5_m (4 * 2 ^ 120 + 2 ^ 93) 1 0 0 0 2
      (by decide) (by decide) (by decide) (by decide) (by decide) (by decide)
      (by decide) (by decide) (by decide) (by decide) (by decide)⟩

/-- Machine for the C6 counterexample: `VLEN = 8`, one 8x8 bank whose
row 0 is `[(1,0),(2,0),...,(8,0)]`. -/
def C6_m : Machine :=
  { cfg := { vlen := 8, banks := 1, rows_mult := 1, cols_mult := 1,
             pred_uses_real_only := true }
    pc := 0
    s := List.replicate 8 ((0, 0) : Cx)
    v := List.replicate 8 (List.replicate 8 ((0, 0) : Cx))
    bank := [[(1, 0), (2, 0), (3, 0), (4, 0), (5, 0), (6, 0), (7, 0), ((8 : Int), (0 : Int))]
        :: List.replicate 7 (List.replicate 8 ((0, 0) : Cx))]
    rows := 8
    cols := 8 }

/-- The word the assembler produces for `vld v1, 0, 0, 0, 5`. -/
def C6_w : Nat := 4 * 2 ^ 120 + 2 ^ 93 + 5 * 2 ^ 41

/-- Claim C6, counterexample: the assembler's `vld` branch takes the
five-operand shape `v*, mbid, rc, idx16, len16`; assembling
`vld v1, 0, 0, 0, 5` succeeds and places `len16 = 5` in bits 56:41 of
the word — so those bits are not reserved-as-zero — and executing it on
`C6_m` (where `VLEN = 8` and row 0 holds eight non-zero elements)
transfers only 5 elements: lanes 5..7 of `v1` are `(0,0)` although the
bank holds `(6,0),(7,0),(8,0)` there. -/
theorem claim_C6_counterexample :
    encS_vldvst 0 1 0 0 0 5 = .ok C6_w
    ∧ get_bits C6_w 56 41 = 5
    ∧ (5 : Nat) ≠ 0
    ∧ exec_s C6_m C6_w
      = .ok { C6_m with
          v := C6_m.v.set 1 [((1 : Int), (0 : Int)), (2, 0), (3, 0), (4, 0), (5, 0),
            (0, 0), (0, 0), (0, 0)]
          pc := 1 }
    ∧ bank_get C6_m.bank 0 0 5 = ((6 : Int), (0 : Int)) := by
  decide

/-- Claim C6, amended: the assembler accepts the five-operand shape
`vX, mbid, rc, idx16, len16` for `vld`/`vst`, with the orientation
taken from the `rc` operand (bit 111) — there are no `.rm`/`.cm`
mnemonic suffixes — bits 56:41 hold the programmable `len16`, and the
emulator transfers `L` elements where `L = len16` when `len16 ≠ 0` and
`L = VLEN` when `len16 = 0` (lanes `≥ min L VLEN` of a loaded vector
are zero-filled). -/
theorem claim_C6_amended :
    (∀ subop reg3 mbid rc idx16 len16 : Nat,
      subop < 256 → reg3 < 8 → mbid < 4 → rc < 2 → idx16 < 65536 → len16 < 65536 →
      reg3 ≠ 0 →
      ∃ w, encS_vldvst subop reg3 mbid rc idx16 len16 = .ok w
        ∧ get_bits w 111 111 = rc ∧ get_bits w 56 41 = len16
        ∧ get_bits w 88 73 = idx16 ∧ get_bits w 72 57 = 0)
    ∧ (∀ (m : Machine) (w : Nat) (reg3 mbid i16 len16 : Nat),
      get_bits w 119 112 = 0x00 → get_bits w 111 111 = 0 →
      get_bits w 95 93 = reg3 → get_bits w 92 89 = mbid →
      get_bits w 88 73 = i16 → get_bits w 56 41 = len16 → len16 ≠ 0 →
      mbid < m.bank.length → i16 < m.rows → len16 ≤ m.cols → reg3 ≠ 0 →
      exec_s m w = .ok { m with
        v := m.v.set reg3 (((List.range m.cfg.vlen).map fun k =>
          if k < min len16 m.cfg.vlen then bank_get m.bank mbid i16 k else (0, 0)).map
            fun p => (sat64 p.1, sat64 p.2))
        pc := m.pc + 1 })
    ∧ (∀ (m : Machine) (w : Nat) (reg3 mbid i16 : Nat),
      get_bits w 119 112 = 0x00 → get_bits w 111 111 = 0 →
      get_bits w 95 93 = reg3 → get_bits w 92 89 = mbid →
      get_bits w 88 73 = i16 → get_bits w 56 41 = 0 →
      mbid < m.bank.length → i16 < m.rows → m.cfg.vlen ≤ m.cols → reg3 ≠ 0 →
      exec_s m w = .ok { m with
        v := m.v.set reg3 (((List.range m.cfg.vlen).map fun k =>
          if k < min m.cfg.vlen m.cfg.vlen then bank_get m.bank mbid i16 k else (0, 0)).map
            fun p => (sat64 p.1, sat64 p.2))
        pc := m.pc + 1 }) := by
  refine ⟨?_, ?_, ?_⟩
  · intro subop reg3 mbid rc idx16 len16 h1 h2 h3 h4 h5 h6 h7
    refine ⟨_, encS_vldvst_ok h1 h2 h3 h4 h5 h6 h7, ?_, ?_, ?_, ?_⟩
    · exact (decode_S_vldvst h1 h2 h3 h4 h5 h6).2.2.1
    · exact (decode_S_vldvst h1 h2 h3 h4 h5 h6).2.2.2.2.2.2.2.1
    · exact (decode_S_vldvst h1 h2 h3 h4 h5 h6).2.2.2.2.2.1
    · exact (decode_S_vldvst h1 h2 h3 h4 h5 h6).2.2.2.2.2.2.1
  · intro m w reg3 mbid i16 len16 h1 h2 h3 h4 h5 h6 hlen h8 h9 h10 h11
    exact exec_s_vld_row m w reg3 mbid i16 len16 len16 h1 h2 h3 h4 h5 h6
      (by rw [if_pos hlen]) h8 h9 h10 h11
  · intro m w reg3 mbid i16 h1 h2 h3 h4 h5 h6 h8 h9 h10 h11
    exact exec_s_vld_row m w reg3 mbid i16 0 m.cfg.vlen h1 h2 h3 h4 h5 h6
      (by rw [if_neg (by omega)]) h8 h9 h10 h11

/-- Witness for `claim_C6_amended`: the concrete `vld v1, 0, 0, 0, 5`
encoding. -/
theorem claim_C6_witness :
    ∃ w, encS_vldvst 0 1 0 0 0 5 = .ok w
      ∧ get_bits w 111 111 = 0 ∧ get_bits w 56 41 = 5
      ∧ get_bits w 88 73 = 0 ∧ get_bits w 72 57 = 0 :=
  claim_C6_amended.1 0 1 0 0 0 5 (by decide) (by decide) (by decide) (by decide)
    (by decide) (by decide) (by decide)

/-! ## Claim C1: encoding round-trip and zero reserved bits -/

/-- Claim C1: for every mnemonic family and every valid operand tuple,
the assembled 128-bit word decodes — with `get_bits`/`get_bits_signed`
at the positions the emulator uses — to exactly the encoded values, and
all bits outside the family's defined fields are zero.  The R statement
covers all R mnemonics through a generic `subop` and mapping code
(`imm16` is encoded as zero, shown by bits 86:0 being zero); the
I statement covers `cloadi` (with `rs1 = 0`) and the `c*_i` forms; the
J statement is `jrel` with its signed 33-bit offset; the two S
statements cover `vld`/`vst` (with `j16` encoded as zero) and
`sld.xy`/`sst.xy`. -/
theorem claim_C1_encoding_roundtrip :
    (∀ subop mapcode rd rs1 rs2 : Nat,
      subop < 256 → mapcode < 4 → rd < 8 → rs1 < 8 → rs2 < 8 → rd ≠ 0 →
      ∃ w, encR subop mapcode rd rs1 rs2 = .ok w
        ∧ get_bits w 127 120 = 1 ∧ get_bits w 119 112 = subop
        ∧ get_bits w 97 96 = mapcode ∧ get_bits w 95 93 = rd
        ∧ get_bits w 92 90 = rs1 ∧ get_bits w 89 87 = rs2
        ∧ get_bits w 111 98 = 0 ∧ get_bits w 86 0 = 0)
    ∧ (∀ subop rd rs1 re_bits im_bits : Nat,
      subop < 256 → rd < 8 → rs1 < 8 → re_bits < 2 ^ 45 → im_bits < 2 ^ 45 → rd ≠ 0 →
      ∃ w, encI subop rd rs1 re_bits im_bits = .ok w
        ∧ get_bits w 127 120 = 2 ∧ get_bits w 119 112 = subop
        ∧ get_bits w 95 93 = rd ∧ get_bits w 92 90 = rs1
        ∧ get_bits w 44 0 = re_bits ∧ get_bits w 89 45 = im_bits
        ∧ get_bits w 111 96 = 0)
    ∧ (∀ offs : Int, -((2 : Int) ^ 32) ≤ offs → offs ≤ (2 : Int) ^ 32 - 1 →
      ∃ w, encJ offs = .ok w
        ∧ get_bits w 127 120 = 3 ∧ get_bits w 119 112 = 0
        ∧ get_bits w 95 93 = 1 ∧ get_bits_signed w 92 60 = offs
        ∧ get_bits w 111 96 = 0 ∧ get_bits w 59 0 = 0)
    ∧ (∀ subop reg3 mbid rc idx16 len16 : Nat,
      subop < 256 → reg3 < 8 → mbid < 4 → rc < 2 → idx16 < 65536 → len16 < 65536 →
      reg3 ≠ 0 →
      ∃ w, encS_vldvst subop reg3 mbid rc idx16 len16 = .ok w
        ∧ get_bits w 127 120 = 4 ∧ get_bits w 119 112 = subop
        ∧ get_bits w 111 111 = rc ∧ get_bits w 95 93 = reg3
        ∧ get_bits w 92 89 = mbid ∧ get_bits w 88 73 = idx16
        ∧ get_bits w 72 57 = 0 ∧ get_bits w 56 41 = len16
        ∧ get_bits w 110 96 = 0 ∧ get_bits w 40 0 = 0)
    ∧ (∀ reg3 mbid x16 y16 : Nat,
      reg3 < 8 → mbid < 4 → x16 < 65536 → y16 < 65536 → reg3 ≠ 0 →
      ∃ w, encS_sldxy reg3 mbid x16 y16 = .ok w
        ∧ get_bits w 127 120 = 4 ∧ get_bits w 119 112 = 2
        ∧ get_bits w 95 93 = reg3 ∧ get_bits w 92 89 = mbid
        ∧ get_bits w 88 73 = x16 ∧ get_bits w 72 57 = y16
        ∧ get_bits w 56 41 = 0 ∧ get_bits w 111 96 = 0 ∧ get_bits w 40 0 = 0)
    ∧ (∀ reg3 mbid x16 y16 : Nat,
      reg3 < 8 → mbid < 4 → x16 < 65536 → y16 < 65536 →
      ∃ w, encS_sstxy reg3 mbid x16 y16 = .ok w
        ∧ get_bits w 127 120 = 4 ∧ get_bits w 119 112 = 3
        ∧ get_bits w 95 93 = reg3 ∧ get_bits w 92 89 = mbid
        ∧ get_bits w 88 73 = x16 ∧ get_bits w 72 57 = y16
        ∧ get_bits w 56 41 = 0 ∧ get_bits w 111 96 = 0 ∧ get_bits w 40 0 = 0) := by
  refine ⟨?_, ?_, ?_, ?_, ?_, ?_⟩
  · intro subop mapcode rd rs1 rs2 h1 h2 h3 h4 h5 h6
    obtain ⟨d1, d2, d3, d4, d5, d6, d7, d8⟩ := decode_R h1 h2 h3 h4 h5
    exact ⟨_, encR_ok h1 h2 h3 h4 h5 h6, d1, d2, d3, d4, d5, d6, d7, d8⟩
  · intro subop rd rs1 re_bits im_bits h1 h2 h3 h4 h5 h6
    obtain ⟨d1, d2, d3, d4, d5, d6, d7⟩ := decode_I h1 h2 h3 h4 h5
    exact ⟨_, encI_ok h1 h2 h3 h4 h5 h6, d1, d2, d3, d4, d5, d6, d7⟩
  · intro offs h1 h2
    have hu : (if offs < 0 then (2 : Int) ^ 33 + offs else offs).toNat < 2 ^ 33 := by
      rcases lt_or_ge offs 0 with hneg | hpos
      · rw [if_pos hneg]
        omega
      · rw [if_neg (not_lt.mpr hpos)]
        omega
    obtain ⟨d1, d2, d3, _, d5, d6⟩ := decode_J hu
    exact ⟨_, encJ_ok h1 h2 rfl, d1, d2, d3, decode_J_offs h1 h2 rfl, d5, d6⟩
  · intro subop reg3 mbid rc idx16 len16 h1 h2 h3 h4 h5 h6 h7
    obtain ⟨d1, d2, d3, d4, d5, d6, d7, d8, d9, d10⟩ := decode_S_vldvst h1 h2 h3 h4 h5 h6
    exact ⟨_, encS_vldvst_ok h1 h2 h3 h4 h5 h6 h7,
      d1, d2, d3, d4, d5, d6, d7, d8, d9, d10⟩
  · intro reg3 mbid x16 y16 h1 h2 h3 h4 h5
    obtain ⟨d1, d2, d3, d4, d5, d6, d7, d8, d9⟩ :=
      @decode_S_xy 2 reg3 mbid x16 y16 (by norm_num) h1 h2 h3 h4
    exact ⟨_, encS_sldxy_ok h1 h2 h3 h4 h5, d1, d2, d3, d4, d5, d6, d7, d8, d9⟩
  · intro reg3 mbid x16 y16 h1 h2 h3 h4
    obtain ⟨d1, d2, d3, d4, d5, d6, d7, d8, d9⟩ :=
      @decode_S_xy 3 reg3 mbid x16 y16 (by norm_num) h1 h2 h3 h4
    exact ⟨_, encS_sstxy_ok h1 h2 h3 h4, d1, d2, d3, d4, d5, d6, d7, d8, d9⟩

/-- Witness for `claim_C1_encoding_roundtrip`: one concrete instance of
each family (`cmul s2, s3, s4`; a `cadd_i`; `jrel -5`; `vld`; `sld.xy`;
`sst.xy`). -/
theorem claim_C1_witness :
    ((10 : Nat) < 256 ∧ (2 : Nat) ≠ 0)
    ∧ (∃ w, encR 10 0 2 3 4 = .ok w
        ∧ get_bits w 127 120 = 1 ∧ get_bits w 119 112 = 10
        ∧ get_bits w 97 96 = 0 ∧ get_bits w 95 93 = 2
        ∧ get_bits w 92 90 = 3 ∧ get_bits w 89 87 = 4
        ∧ get_bits w 111 98 = 0 ∧ get_bits w 86 0 = 0)
    ∧ (∃ w, encI 1 2 3 12345 67890 = .ok w
        ∧ get_bits w 127 120 = 2 ∧ get_bits w 119 112 = 1
        ∧ get_bits w 95 93 = 2 ∧ get_bits w 92 90 = 3
        ∧ get_bits w 44 0 = 12345 ∧ get_bits w 89 45 = 67890
        ∧ get_bits w 111 96 = 0)
    ∧ (∃ w, encJ (-5) = .ok w
        ∧ get_bits w 127 120 = 3 ∧ get_bits w 119 112 = 0
        ∧ get_bits w 95 93 = 1 ∧ get_bits_signed w 92 60 = -5
        ∧ get_bits w 111 96 = 0 ∧ get_bits w 59 0 = 0)
    ∧ (∃ w, encS_vldvst 1 2 3 1 400 7 = .ok w
        ∧ get_bits w 127 120 = 4 ∧ get_bits w 119 112 = 1
        ∧ get_bits w 111 111 = 1 ∧ get_bits w 95 93 = 2
        ∧ get_bits w 92 89 = 3 ∧ get_bits w 88 73 = 400
        ∧ get_bits w 72 57 = 0 ∧ get_bits w 56 41 = 7
        ∧ get_bits w 110 96 = 0 ∧ get_bits w 40 0 = 0)
    ∧ (∃ w, encS_sldxy 5 1 9 11 = .ok w
        ∧ get_bits w 127 120 = 4 ∧ get_bits w 119 112 = 2
        ∧ get_bits w 95 93 = 5 ∧ get_bits w 92 89 = 1
        ∧ get_bits w 88 73 = 9 ∧ get_bits w 72 57 = 11
        ∧ get_bits w 56 41 = 0 ∧ get_bits w 111 96 = 0 ∧ get_bits w 40 0 = 0)
    ∧ (∃ w, encS_sstxy 0 1 9 11 = .ok w
        ∧ get_bits w 127 120 = 4 ∧ get_bits w 119 112 = 3
        ∧ get_bits w 95 93 = 0 ∧ get_bits w 92 89 = 1
        ∧ get_bits w 88 73 = 9 ∧ get_bits w 72 57 = 11
        ∧ get_bits w 56 41 = 0 ∧ get_bits w 111 96 = 0 ∧ get_bits w 40 0 = 0) :=
  ⟨⟨by decide, by decide⟩,
    claim_C1_encoding_roundtrip.1 10 0 2 3 4 (by decide) (by decide) (by decide)
      (by decide) (by decide) (by decide),
    claim_C1_encoding_roundtrip.2.1 1 2 3 12345 67890 (by decide) (by decide)
      (by decide) (by decide) (by decide) (by decide),
    claim_C1_encoding_roundtrip.2.2.1 (-5) (by decide) (by decide),
    claim_C1_encoding_roundtrip.2.2.2.1 1 2 3 1 400 7 (by decide) (by decide)
      (by decide) (by decide) (by decide) (by decide) (by decide),
    claim_C1_encoding_roundtrip.2.2.2.2.1 5 1 9 11 (by decide) (by decide)
      (by decide) (by decide) (by decide),
    claim_C1_encoding_roundtrip.2.2.2.2.2 0 1 9 11 (by decide) (by decide)
      (by decide) (by decide)⟩

/-! ## Frame lemmas for the execution step (used by claims C2 and C10) -/

theorem except_bind_error {α β : Type} (e : String) (f : α → Except String β) :
    (Except.error e : Except String α) >>= f = .error e := rfl

theorem write_s_ok {m : Machine} {idx : Nat} {z : Cx} {m2 : Machine}
    (h : m.write_s idx z = .ok m2) :
    idx ≠ 0 ∧ m2 = { m with s := m.s.set idx (sat64 z.1, sat64 z.2) } := by
  unfold Machine.write_s at h
  split at h
  next => exact Except.noConfusion h
  next h0 => exact ⟨h0, (Except.ok.inj h).symm⟩

theorem write_v_ok {m : Machine} {idx : Nat} {vec : List Cx} {m2 : Machine}
    (h : m.write_v idx vec = .ok m2) :
    idx ≠ 0 ∧ vec.length = m.cfg.vlen
      ∧ m2 = { m with v := m.v.set idx (vec.map fun p => (sat64 p.1, sat64 p.2)) } := by
  unfold Machine.write_v at h
  split at h
  next => exact Except.noConfusion h
  next h0 =>
    split at h
    next => exact Except.noConfusion h
    next h1 => exact ⟨h0, not_ne_iff.mp h1, (Except.ok.inj h).symm⟩

/-- All complex values stored in the matrix banks satisfy `P`. -/
def BankAll (P : Cx → Prop) (bank : List (List (List Cx))) : Prop :=
  ∀ bk ∈ bank, ∀ row ∈ bk, ∀ z ∈ row, P z

/-- What one execution step may do to the state: the configuration is
unchanged; at most one scalar register (never `s0`) is overwritten with
a saturated pair; at most one vector register (never `v0`) is
overwritten with saturated lanes; and every value in the new banks is
either an old bank value, an old register value, or the zero pad. -/
def Frame (m m2 : Machine) : Prop :=
  m2.cfg = m.cfg
  ∧ (m2.s = m.s ∨ ∃ (i : Nat) (z : Cx), i ≠ 0 ∧ m2.s = m.s.set i (sat64 z.1, sat64 z.2))
  ∧ (m2.v = m.v ∨ ∃ (i : Nat) (l : List Cx), i ≠ 0
      ∧ m2.v = m.v.set i (l.map fun p => (sat64 p.1, sat64 p.2)))
  ∧ (∀ P : Cx → Prop, P (0, 0) → (∀ z ∈ m.s, P z) → (∀ l ∈ m.v, ∀ z ∈ l, P z) →
      BankAll P m.bank → BankAll P m2.bank)

theorem frame_of_write_s {m : Machine} {idx : Nat} {z : Cx} {m2 : Machine}
    (h : m.write_s idx z = .ok m2) : Frame m m2 := by
  obtain ⟨h0, rfl⟩ := write_s_ok h
  exact ⟨rfl, Or.inr ⟨idx, z, h0, rfl⟩, Or.inl rfl, fun P _ _ _ hb => hb⟩

theorem frame_of_write_v {m : Machine} {idx : Nat} {vec : List Cx} {m2 : Machine}
    (h : m.write_v idx vec = .ok m2) : Frame m m2 := by
  obtain ⟨h0, _, rfl⟩ := write_v_ok h
  exact ⟨rfl, Or.inl rfl, Or.inr ⟨idx, vec, h0, rfl⟩, fun P _ _ _ hb => hb⟩

theorem frame_pc {m m2 : Machine} (hf : Frame m m2) (pc2 : Int) :
    Frame m { m2 with pc := pc2 } := by
  obtain ⟨h1, h2, h3, h4⟩ := hf
  exact ⟨h1, h2, h3, h4⟩

set_option maxHeartbeats 3200000 in
theorem exec_r_frame {f : Cx → Cx} {m : Machine} {w : Nat} {m2 : Machine}
    (h : exec_r f m w = .ok m2) : Frame m m2 := by
  simp only [exec_r] at h
  generalize get_bits w 119 112 = subop at h
  generalize get_bits w 95 93 = rd at h
  generalize get_bits w 92 90 = rs1 at h
  generalize get_bits w 89 87 = rs2 at h
  generalize m.s.getD rs1 (0, 0) = a at h
  generalize m.s.getD rs2 (0, 0) = b at h
  generalize m.v.getD rs1 [] = A at h
  generalize m.v.getD rs2 [] = B at h
  generalize m.v.getD rd [] = D0 at h
  generalize (if c_abs2 a ≥ c_abs2 b then a else b) = mx at h
  generalize (if c_abs2 a ≤ c_abs2 b then a else b) = mn at h
  generalize (if a.1 < b.1 then ((2 : Int) ^ FRAC_BITS) else 0) = lt1 at h
  generalize (if a.1 > b.1 then ((2 : Int) ^ FRAC_BITS) else 0) = gt1 at h
  generalize (if a.1 ≤ b.1 then ((2 : Int) ^ FRAC_BITS) else 0) = le1 at h
  rcases eq_or_ne (get_bits w 97 96) MAP_SS_to_S with hmb | hmb
  · rw [if_pos hmb] at h
    repeat' split at h
    all_goals first
      | exact Except.noConfusion h
      | exact frame_of_write_s h
      | exact frame_of_write_v h
  · rw [if_neg hmb] at h
    rcases eq_or_ne (get_bits w 97 96) MAP_VV_to_V with hmb2 | hmb2
    · rw [if_pos hmb2] at h
      repeat' split at h
      all_goals first
        | exact Except.noConfusion h
        | exact frame_of_write_s h
        | exact frame_of_write_v h
    · rw [if_neg hmb2] at h
      rcases eq_or_ne (get_bits w 97 96) MAP_VV_to_S with hmb3 | hmb3
      · rw [if_pos hmb3] at h
        repeat' split at h
        all_goals first
          | exact Except.noConfusion h
          | exact frame_of_write_s h
          | exact frame_of_write_v h
      · rw [if_neg hmb3] at h
        rcases eq_or_ne (get_bits w 97 96) MAP_VS_to_V with hmb4 | hmb4
        · rw [if_pos hmb4] at h
          repeat' split at h
          all_goals first
            | exact Except.noConfusion h
            | exact frame_of_write_s h
            | exact frame_of_write_v h
        · rw [if_neg hmb4] at h
          exact Except.noConfusion h

theorem exec_i_frame {m : Machine} {w : Nat} {m2 : Machine}
    (h : exec_i m w = .ok m2) : Frame m m2 := by
  simp only [exec_i] at h
  repeat' split at h
  all_goals first
    | exact Except.noConfusion h
    | exact frame_of_write_s h
    | (exact (Except.ok.inj h) ▸ ⟨rfl, Or.inl rfl, Or.inl rfl, fun P _ _ _ hb => hb⟩)

theorem exec_j_frame {m : Machine} {w : Nat} {plen : Nat} {m2 : Machine}
    (h : exec_j m w plen = .ok m2) : Frame m m2 := by
  simp only [exec_j] at h
  repeat' split at h
  all_goals first
    | exact Except.noConfusion h
    | exact (Except.ok.inj h) ▸ ⟨rfl, Or.inl rfl, Or.inl rfl, fun P _ _ _ hb => hb⟩

theorem getD_P {α : Type} {P : α → Prop} {l : List α} {d : α} (i : Nat)
    (hd : P d) (hl : ∀ z ∈ l, P z) : P (l.getD i d) := by
  rw [List.getD_eq_getElem?_getD]
  cases hx : l[i]? with
  | none => exact hd
  | some x =>
    have hi : i < l.length := by
      by_contra hge
      rw [List.getElem?_eq_none (Nat.le_of_not_lt hge)] at hx
      exact Option.noConfusion hx
    have hxe : l.get ⟨i, hi⟩ = x := by
      rw [List.getElem?_eq_getElem hi] at hx
      exact Option.some.inj hx
    exact hxe ▸ hl _ (l.get_mem i hi)

theorem all_set {α : Type} {P : α → Prop} {l : List α} {c : Nat} {v : α}
    (hl : ∀ z ∈ l, P z) (hv : P v) : ∀ z ∈ l.set c v, P z := by
  intro z hz
  rcases List.mem_or_eq_of_mem_set hz with h | rfl
  · exact hl z h
  · exact hv

theorem bankP_set2 {P : Cx → Prop} {bk2 : List (List Cx)} {r c : Nat} {v : Cx}
    (hbk : ∀ row ∈ bk2, ∀ z ∈ row, P z) (hv : P v) :
    ∀ row ∈ set2 bk2 r c v, ∀ z ∈ row, P z := by
  unfold set2
  exact all_set hbk (all_set (getD_P r (fun z hz => absurd hz (List.not_mem_nil z)) hbk) hv)

theorem bankAll_set_set2 {P : Cx → Prop} {bk : List (List (List Cx))}
    {mbid r c : Nat} {v : Cx} (hb : BankAll P bk) (hv : P v) :
    BankAll P (bk.set mbid (set2 (bk.getD mbid []) r c v)) := by
  intro b hbmem
  rcases List.mem_or_eq_of_mem_set hbmem with hmem | rfl
  · exact hb b hmem
  · exact bankP_set2 (getD_P mbid (fun row hrow => absurd hrow (List.not_mem_nil row)) hb) hv

theorem bankAll_foldl {P : Cx → Prop} {mbid r : Nat} (v : Nat → Cx) (l : List Nat) :
    ∀ (bk : List (List (List Cx))), BankAll P bk → (∀ c, P (v c)) →
      BankAll P (l.foldl
        (fun bk c => bk.set mbid (set2 (bk.getD mbid []) r c (v c))) bk) := by
  induction l with
  | nil => exact fun _ hb _ => hb
  | cons c rest ih =>
    intro bk hb hv
    rw [List.foldl_cons]
    exact ih _ (bankAll_set_set2 hb (hv c)) hv

theorem bankAll_foldl_col {P : Cx → Prop} {mbid c : Nat} (v : Nat → Cx) (l : List Nat) :
    ∀ (bk : List (List (List Cx))), BankAll P bk → (∀ r, P (v r)) →
      BankAll P (l.foldl
        (fun bk r => bk.set mbid (set2 (bk.getD mbid []) r c (v r))) bk) := by
  induction l with
  | nil => exact fun _ hb _ => hb
  | cons r rest ih =>
    intro bk hb hv
    rw [List.foldl_cons]
    exact ih _ (bankAll_set_set2 hb (hv r)) hv

theorem frame_of_bind_write_s {m : Machine} {idx : Nat} {z : Cx} {m2 : Machine}
    (h : (m.write_s idx z >>= fun m3 => pure { m3 with pc := m3.pc + 1 }) = .ok m2) :
    Frame m m2 := by
  cases hws : m.write_s idx z with
  | error e => rw [hws] at h; exact Except.noConfusion h
  | ok m3 =>
    rw [hws, except_bind_ok] at h
    cases Except.ok.inj h
    exact frame_pc (frame_of_write_s hws) _

theorem frame_of_bind_write_v {m : Machine} {idx : Nat} {vec : List Cx} {m2 : Machine}
    (h : (m.write_v idx vec >>= fun m3 => pure { m3 with pc := m3.pc + 1 }) = .ok m2) :
    Frame m m2 := by
  cases hwv : m.write_v idx vec with
  | error e => rw [hwv] at h; exact Except.noConfusion h
  | ok m3 =>
    rw [hwv, except_bind_ok] at h
    cases Except.ok.inj h
    exact frame_pc (frame_of_write_v hwv) _

set_option maxHeartbeats 3200000 in
theorem exec_s_frame {m : Machine} {w : Nat} {m2 : Machine}
    (h : exec_s m w = .ok m2) : Frame m m2 := by
  simp only [exec_s] at h
  repeat' split at h
  all_goals first
    | exact Except.noConfusion h
    | exact frame_of_bind_write_s h
    | exact frame_of_bind_write_v h
    | (rw [pure_bind] at h
       exact frame_of_bind_write_v h)
    | (cases Except.ok.inj h
       refine ⟨rfl, Or.inl rfl, Or.inl rfl, fun P hP0 hPs hPv hPb => ?_⟩
       first
         | exact bankAll_set_set2 hPb (getD_P _ hP0 hPs)
         | (refine bankAll_foldl _ _ _ hPb ?_
            intro c
            dsimp only
            split
            · exact getD_P c hP0
                (getD_P _ (fun z hz => absurd hz (List.not_mem_nil z)) hPv)
            · exact hP0)
         | (refine bankAll_foldl_col _ _ _ hPb ?_
            intro r
            dsimp only
            split
            · exact getD_P r hP0
                (getD_P _ (fun z hz => absurd hz (List.not_mem_nil z)) hPv)
            · exact hP0))

theorem frame_of_bind_pc {m : Machine} {r : Except String Machine} {m2 : Machine}
    (hf : ∀ m3, r = .ok m3 → Frame m m3)
    (h : (r >>= fun m3 => pure { m3 with pc := m3.pc + 1 }) = .ok m2) :
    Frame m m2 := by
  cases hr : r with
  | error e => rw [hr] at h; exact Except.noConfusion h
  | ok m3 =>
    rw [hr, except_bind_ok] at h
    cases Except.ok.inj h
    exact frame_pc (hf m3 hr) _

/-- One executed instruction observes the frame conditions: the
configuration is untouched, registers `s0`/`v0` are never written, any
written register holds saturated data, and the banks only ever receive
old bank values, register values, or zero. -/
theorem exec_one_frame {f : Cx → Cx} {m : Machine} {w : Nat} {plen : Nat}
    {m2 : Machine} (h : exec_one f m w plen = .ok m2) : Frame m m2 := by
  simp only [exec_one] at h
  repeat' split at h
  all_goals first
    | exact Except.noConfusion h
    | exact frame_of_bind_pc (fun m3 hr => exec_r_frame hr) h
    | exact frame_of_bind_pc (fun m3 hr => exec_i_frame hr) h
    | exact exec_j_frame h
    | exact exec_s_frame h

/-! ## C10: every stored raw component stays within the saturation range -/

/-- Both raw components of a stored pair lie in `[RAW_MIN, RAW_MAX]`. -/
def InRangeP (z : Cx) : Prop :=
  RAW_MIN ≤ z.1 ∧ z.1 ≤ RAW_MAX ∧ RAW_MIN ≤ z.2 ∧ z.2 ≤ RAW_MAX

/-- Every raw component stored in the machine state — scalar registers,
vector lanes, and matrix-bank elements — is in range. -/
def InRange (m : Machine) : Prop :=
  (∀ z ∈ m.s, InRangeP z) ∧ (∀ l ∈ m.v, ∀ z ∈ l, InRangeP z)
    ∧ BankAll InRangeP m.bank

instance (z : Cx) : Decidable (InRangeP z) := by
  unfold InRangeP
  infer_instance

instance (m : Machine) : Decidable (InRange m) := by
  unfold InRange BankAll
  infer_instance

theorem sat64_range (x : Int) : RAW_MIN ≤ sat64 x ∧ sat64 x ≤ RAW_MAX := by
  unfold sat64 RAW_MIN RAW_MAX
  split_ifs <;> omega

theorem inRangeP_zero : InRangeP (0, 0) := by
  unfold InRangeP RAW_MIN RAW_MAX
  norm_num

theorem inRangeP_sat64 (a b : Int) : InRangeP (sat64 a, sat64 b) :=
  ⟨(sat64_range a).1, (sat64_range a).2, (sat64_range b).1, (sat64_range b).2⟩

theorem inRange_of_frame {m m2 : Machine} (hf : Frame m m2) (hm : InRange m) :
    InRange m2 := by
  obtain ⟨_, hs, hv, hb⟩ := hf
  obtain ⟨hms, hmv, hmb⟩ := hm
  refine ⟨?_, ?_, hb InRangeP inRangeP_zero hms hmv hmb⟩
  · rcases hs with heq | ⟨i, z, _, hset⟩
    · rw [heq]
      exact hms
    · rw [hset]
      exact all_set hms (inRangeP_sat64 z.1 z.2)
  · rcases hv with heq | ⟨i, l, _, hset⟩
    · rw [heq]
      exact hmv
    · rw [hset]
      refine all_set hmv ?_
      intro z hz
      rcases List.mem_map.mp hz with ⟨p, _, rfl⟩
      exact inRangeP_sat64 p.1 p.2

theorem inRange_init (cfg : MachineConfig) : InRange (Machine.init cfg) := by
  refine ⟨fun z hz => ?_, fun l hl z hz => ?_, fun bk hbk row hrow z hz => ?_⟩
  · simp only [Machine.init] at hz
    rw [List.eq_of_mem_replicate hz]
    exact inRangeP_zero
  · simp only [Machine.init] at hl
    rw [List.eq_of_mem_replicate hl] at hz
    rw [List.eq_of_mem_replicate hz]
    exact inRangeP_zero
  · simp only [Machine.init] at hbk
    rw [List.eq_of_mem_replicate hbk] at hrow
    rw [List.eq_of_mem_replicate hrow] at hz
    rw [List.eq_of_mem_replicate hz]
    exact inRangeP_zero

/-- C10: after every executed instruction, every raw component stored in
the machine state — both components of every scalar register, every lane
of every vector register, and every element of every matrix bank — lies
within `[-2^63, 2^63 - 1]`: the initial state satisfies the range
invariant, and one step of `exec_one` (for any square-root model, word
and program length) preserves it. -/
theorem claim_C10_saturation_invariant :
    (∀ cfg : MachineConfig, InRange (Machine.init cfg))
    ∧ (∀ (f : Cx → Cx) (m : Machine) (w plen : Nat) (m2 : Machine),
        InRange m → exec_one f m w plen = .ok m2 → InRange m2) :=
  ⟨inRange_init, fun _ _ _ _ _ hm h => inRange_of_frame (exec_one_frame h) hm⟩

/-- `cneg s1, s0`: an R-type word executing successfully from the reset
state. -/
def C10_w : Nat := 2 ^ 120 + 2 ^ 93

def C10_m2 : Machine := { Machine.init {} with pc := 1 }

theorem claim_C10_witness : InRange (Machine.init {}) ∧ InRange C10_m2 :=
  ⟨claim_C10_saturation_invariant.1 {},
   claim_C10_saturation_invariant.2 (fun _ => (0, 0)) (Machine.init {}) C10_w 0
     C10_m2 (by decide) (by decide)⟩

/-! ## C2: `s0` and `v0` are architectural zeros -/

/-- Reading `s0` yields `(0, 0)` and reading `v0` yields all-zero
lanes. -/
def ZeroInv (m : Machine) : Prop :=
  m.s.getD 0 (0, 0) = (0, 0)
    ∧ m.v.getD 0 [] = List.replicate m.cfg.vlen ((0, 0) : Cx)

instance (m : Machine) : Decidable (ZeroInv m) := by
  unfold ZeroInv
  infer_instance

theorem zeroInv_init (cfg : MachineConfig) : ZeroInv (Machine.init cfg) :=
  ⟨rfl, rfl⟩

theorem zeroInv_of_frame {m m2 : Machine} (hf : Frame m m2) (hz : ZeroInv m) :
    ZeroInv m2 := by
  obtain ⟨hcfg, hs, hv, _⟩ := hf
  obtain ⟨hz1, hz2⟩ := hz
  constructor
  · rcases hs with heq | ⟨i, z, hi, hset⟩
    · rw [heq]
      exact hz1
    · rw [hset, getD_set_ne _ hi]
      exact hz1
  · rw [hcfg]
    rcases hv with heq | ⟨i, l, hi, hset⟩
    · rw [heq]
      exact hz2
    · rw [hset, getD_set_ne _ hi]
      exact hz2

theorem bind_write_s0_false {m : Machine} {z : Cx} {m2 : Machine}
    (h : (m.write_s 0 z >>= fun m3 => pure { m3 with pc := m3.pc + 1 })
      = .ok m2) : False := by
  cases hws : m.write_s 0 z with
  | error e =>
    rw [hws] at h
    exact Except.noConfusion h
  | ok m3 => exact (write_s_ok hws).1 rfl

theorem bind_write_v0_false {m : Machine} {vec : List Cx} {m2 : Machine}
    (h : (m.write_v 0 vec >>= fun m3 => pure { m3 with pc := m3.pc + 1 })
      = .ok m2) : False := by
  cases hwv : m.write_v 0 vec with
  | error e =>
    rw [hwv] at h
    exact Except.noConfusion h
  | ok m3 => exact (write_v_ok hwv).1 rfl

set_option maxHeartbeats 3200000 in
theorem exec_r_rd0 {f : Cx → Cx} {m : Machine} {w : Nat} {m2 : Machine}
    (h0 : get_bits w 95 93 = 0) (h : exec_r f m w = .ok m2) : False := by
  simp only [exec_r, h0] at h
  generalize get_bits w 119 112 = subop at h
  generalize get_bits w 92 90 = rs1 at h
  generalize get_bits w 89 87 = rs2 at h
  generalize m.s.getD rs1 (0, 0) = a at h
  generalize m.s.getD rs2 (0, 0) = b at h
  generalize m.v.getD rs1 [] = A at h
  generalize m.v.getD rs2 [] = B at h
  generalize m.v.getD 0 [] = D0 at h
  generalize (if c_abs2 a ≥ c_abs2 b then a else b) = mx at h
  generalize (if c_abs2 a ≤ c_abs2 b then a else b) = mn at h
  generalize (if a.1 < b.1 then ((2 : Int) ^ FRAC_BITS) else 0) = lt1 at h
  generalize (if a.1 > b.1 then ((2 : Int) ^ FRAC_BITS) else 0) = gt1 at h
  generalize (if a.1 ≤ b.1 then ((2 : Int) ^ FRAC_BITS) else 0) = le1 at h
  rcases eq_or_ne (get_bits w 97 96) MAP_SS_to_S with hmb | hmb
  · rw [if_pos hmb] at h
    repeat' split at h
    all_goals first
      | exact Except.noConfusion h
      | exact (write_s_ok h).1 rfl
      | exact (write_v_ok h).1 rfl
  · rw [if_neg hmb] at h
    rcases eq_or_ne (get_bits w 97 96) MAP_VV_to_V with hmb2 | hmb2
    · rw [if_pos hmb2] at h
      repeat' split at h
      all_goals first
        | exact Except.noConfusion h
        | exact (write_s_ok h).1 rfl
        | exact (write_v_ok h).1 rfl
    · rw [if_neg hmb2] at h
      rcases eq_or_ne (get_bits w 97 96) MAP_VV_to_S with hmb3 | hmb3
      · rw [if_pos hmb3] at h
        repeat' split at h
        all_goals first
          | exact Except.noConfusion h
          | exact (write_s_ok h).1 rfl
          | exact (write_v_ok h).1 rfl
      · rw [if_neg hmb3] at h
        rcases eq_or_ne (get_bits w 97 96) MAP_VS_to_V with hmb4 | hmb4
        · rw [if_pos hmb4] at h
          repeat' split at h
          all_goals first
            | exact Except.noConfusion h
            | exact (write_s_ok h).1 rfl
            | exact (write_v_ok h).1 rfl
        · rw [if_neg hmb4] at h
          exact Except.noConfusion h

theorem exec_i_rd0 {m : Machine} {w : Nat} {m2 : Machine}
    (h0 : get_bits w 95 93 = 0) (h : exec_i m w = .ok m2) : False := by
  simp only [exec_i, h0] at h
  repeat' split at h
  all_goals first
    | exact Except.noConfusion h
    | exact (write_s_ok h).1 rfl

set_option maxHeartbeats 3200000 in
theorem exec_s_reg0 {m : Machine} {w : Nat} {m2 : Machine}
    (h0 : get_bits w 95 93 = 0)
    (hsub : get_bits w 119 112 = 0 ∨ get_bits w 119 112 = 2)
    (h : exec_s m w = .ok m2) : False := by
  simp only [exec_s, h0] at h
  repeat' split at h
  all_goals first
    | exact Except.noConfusion h
    | (rw [pure_bind] at h
       exact bind_write_v0_false h)
    | exact bind_write_s0_false h
    | omega

theorem encR_rd0 {subop mapcode rs1 rs2 : Nat} (hsub : subop < 256)
    (hmap : mapcode < 4) (hrs1 : rs1 < 8) (hrs2 : rs2 < 8) :
    encR subop mapcode 0 rs1 rs2
      = .error "writing to s0 or v0 is illegal (hard error)" := by
  unfold encR
  refine bind_set_bits_step (by norm_num) (by norm_num) (by norm_num) ?_
  refine bind_set_bits_step (by norm_num) (by norm_num) (by omega) ?_
  refine bind_set_bits_step (by omega) (by omega) (by omega) ?_
  refine bind_set_bits_step (by omega) (by omega) (by omega) ?_
  refine bind_set_bits_step (by omega) (by omega) (by omega) ?_
  refine bind_set_bits_step (by omega) (by omega) (by omega) ?_
  refine bind_set_bits_step (by omega) (by omega) (by omega) ?_
  refine bind_set_bits_step (by norm_num) (by norm_num) (by omega) ?_
  rw [if_pos rfl]

theorem encI_rd0 {subop rs1 re_bits im_bits : Nat} (hsub : subop < 256)
    (hrs1 : rs1 < 8) (hre : re_bits < 2 ^ 45) (him : im_bits < 2 ^ 45) :
    encI subop 0 rs1 re_bits im_bits
      = .error "writing to s0 is illegal (hard error)" := by
  unfold encI
  refine bind_set_bits_step (by norm_num) (by norm_num) (by norm_num) ?_
  refine bind_set_bits_step (by omega) (by omega) (by omega) ?_
  refine bind_set_bits_step (by omega) (by omega) (by omega) ?_
  refine bind_set_bits_step (by omega) (by omega) (by omega) ?_
  refine bind_set_bits_step (by omega) (by omega) (by omega) ?_
  refine bind_set_bits_step (by omega) (by omega) (by omega) ?_
  rw [if_pos rfl]

theorem encS_vldvst_reg0 {subop mbid rc idx16 len16 : Nat} (hsub : subop < 256)
    (hmb : mbid < 4) (hrc : rc < 2) (hidx : idx16 < 65536) (hlen : len16 < 65536) :
    encS_vldvst subop 0 mbid rc idx16 len16
      = .error "writing to v0 is illegal (hard error)" := by
  unfold encS_vldvst
  rw [if_neg (by omega), if_neg (by omega), if_neg (by omega), if_neg (by omega),
    if_neg (by omega)]
  refine bind_set_bits_step (by norm_num) (by norm_num) (by norm_num) ?_
  refine bind_set_bits_step (by omega) (by omega) (by omega) ?_
  refine bind_set_bits_step (by omega) (by omega) (by omega) ?_
  refine bind_set_bits_step (by omega) (by omega) (by omega) ?_
  refine bind_set_bits_step (by omega) (by omega) (by omega) ?_
  refine bind_set_bits_step (by omega) (by omega) (by omega) ?_
  refine bind_set_bits_step (by omega) (by omega) (by omega) ?_
  refine bind_set_bits_step (by omega) (by omega) (by omega) ?_
  rw [if_pos rfl]

theorem encS_sldxy_reg0 {mbid x16 y16 : Nat}
    (hmb : mbid < 4) (hx : x16 < 65536) (hy : y16 < 65536) :
    encS_sldxy 0 mbid x16 y16
      = .error "writing to s0 is illegal (hard error)" := by
  unfold encS_sldxy
  rw [if_neg (by omega), if_neg (by omega), if_neg (by omega), if_neg (by omega)]
  refine bind_set_bits_step (by norm_num) (by norm_num) (by norm_num) ?_
  refine bind_set_bits_step (by norm_num) (by norm_num) (by omega) ?_
  refine bind_set_bits_step (by omega) (by omega) (by omega) ?_
  refine bind_set_bits_step (by omega) (by omega) (by omega) ?_
  refine bind_set_bits_step (by omega) (by omega) (by omega) ?_
  refine bind_set_bits_step (by omega) (by omega) (by omega) ?_
  refine bind_set_bits_step (by norm_num) (by norm_num) (by omega) ?_
  rw [if_pos rfl]

/-- C2: `s0`/`v0` are architectural zeros.  Reading them yields complex
zero in every reachable state: `ZeroInv` (s0 reads `(0, 0)`, v0 reads
all-zero lanes) holds initially and is preserved by every executed
instruction.  Writes designating register 0 are rejected: the emulator
errors on any R-type, I-type, or S-type load (`vld`, `sld.xy`) word
whose destination field is 0, and the assembler's R, I, `vld`/`vst` and
`sld.xy` encoders return the hard error for destination register 0. -/
theorem claim_C2_reserved_registers :
    (∀ cfg : MachineConfig, ZeroInv (Machine.init cfg))
    ∧ (∀ (f : Cx → Cx) (m : Machine) (w plen : Nat) (m2 : Machine),
        ZeroInv m → exec_one f m w plen = .ok m2 → ZeroInv m2)
    ∧ (∀ (f : Cx → Cx) (m : Machine) (w : Nat) (m2 : Machine),
        get_bits w 95 93 = 0 → exec_r f m w ≠ .ok m2)
    ∧ (∀ (m : Machine) (w : Nat) (m2 : Machine),
        get_bits w 95 93 = 0 → exec_i m w ≠ .ok m2)
    ∧ (∀ (m : Machine) (w : Nat) (m2 : Machine),
        get_bits w 95 93 = 0 →
        (get_bits w 119 112 = 0 ∨ get_bits w 119 112 = 2) →
        exec_s m w ≠ .ok m2)
    ∧ (∀ subop mapcode rs1 rs2 : Nat,
        subop < 256 → mapcode < 4 → rs1 < 8 → rs2 < 8 →
        encR subop mapcode 0 rs1 rs2
          = .error "writing to s0 or v0 is illegal (hard error)")
    ∧ (∀ subop rs1 re_bits im_bits : Nat,
        subop < 256 → rs1 < 8 → re_bits < 2 ^ 45 → im_bits < 2 ^ 45 →
        encI subop 0 rs1 re_bits im_bits
          = .error "writing to s0 is illegal (hard error)")
    ∧ (∀ subop mbid rc idx16 len16 : Nat,
        subop < 256 → mbid < 4 → rc < 2 → idx16 < 65536 → len16 < 65536 →
        encS_vldvst subop 0 mbid rc idx16 len16
          = .error "writing to v0 is illegal (hard error)")
    ∧ (∀ mbid x16 y16 : Nat, mbid < 4 → x16 < 65536 → y16 < 65536 →
        encS_sldxy 0 mbid x16 y16
          = .error "writing to s0 is illegal (hard error)") :=
  ⟨zeroInv_init,
   fun _ _ _ _ _ hz h => zeroInv_of_frame (exec_one_frame h) hz,
   fun _ _ _ _ h0 h => exec_r_rd0 h0 h,
   fun _ _ _ h0 h => exec_i_rd0 h0 h,
   fun _ _ _ h0 hsub h => exec_s_reg0 h0 hsub h,
   fun _ _ _ _ h1 h2 h3 h4 => encR_rd0 h1 h2 h3 h4,
   fun _ _ _ _ h1 h2 h3 h4 => encI_rd0 h1 h2 h3 h4,
   fun _ _ _ _ _ h1 h2 h3 h4 h5 => encS_vldvst_reg0 h1 h2 h3 h4 h5,
   fun _ _ _ h1 h2 h3 => encS_sldxy_reg0 h1 h2 h3⟩

def C2_m2 : Machine := { Machine.init {} with pc := 1 }

theorem claim_C2_witness :
    ZeroInv (Machine.init {})
    ∧ ZeroInv C2_m2
    ∧ exec_r (fun _ => (0, 0)) (Machine.init {}) (2 ^ 120) ≠ .ok (Machine.init {})
    ∧ exec_i (Machine.init {}) (2 * 2 ^ 120) ≠ .ok (Machine.init {})
    ∧ exec_s (Machine.init {}) (4 * 2 ^ 120) ≠ .ok (Machine.init {})
    ∧ encR 0 0 0 1 0 = .error "writing to s0 or v0 is illegal (hard error)"
    ∧ encI 0 0 0 0 0 = .error "writing to s0 is illegal (hard error)"
    ∧ encS_vldvst 0 0 0 0 0 5 = .error "writing to v0 is illegal (hard error)"
    ∧ encS_sldxy 0 0 0 0 = .error "writing to s0 is illegal (hard error)" :=
  ⟨claim_C2_reserved_registers.1 {},
   claim_C2_reserved_registers.2.1 (fun _ => (0, 0)) (Machine.init {})
     (2 ^ 120 + 2 ^ 93) 0 C2_m2 (by decide) (by decide),
   claim_C2_reserved_registers.2.2.1 (fun _ => (0, 0)) (Machine.init {})
     (2 ^ 120) (Machine.init {}) (by decide),
   claim_C2_reserved_registers.2.2.2.1 (Machine.init {}) (2 * 2 ^ 120)
     (Machine.init {}) (by decide),
   claim_C2_reserved_registers.2.2.2.2.1 (Machine.init {}) (4 * 2 ^ 120)
     (Machine.init {}) (by decide) (by decide),
   claim_C2_reserved_registers.2.2.2.2.2.1 0 0 1 0
     (by decide) (by decide) (by decide) (by decide),
   claim_C2_reserved_registers.2.2.2.2.2.2.1 0 0 0 0
     (by decide) (by decide) (by decide) (by decide),
   claim_C2_reserved_registers.2.2.2.2.2.2.2.1 0 0 0 0 5
     (by decide) (by decide) (by decide) (by decide) (by decide),
   claim_C2_reserved_registers.2.2.2.2.2.2.2.2 0 0 0
     (by decide) (by decide) (by decide)⟩
